import Mathlib

/-!
Verification of the PewPewCH32 firmware update engine.

Shallow embedding, over `Nat`, of:
* the shared CRC32 routine (`firmware/bootloader/lib/crc32.c`),
* the boot image validator (`validate_app` in the bootloader main file),
* the host-side header generator (`StateMachine::programFirmware`),
* the target flash driver (`firmware/bootloader/src/bl_flash.c`),
* the I2C register protocol and command dispatcher
  (`firmware/bootloader/src/bl_i2c.c`),
* the host programming orchestrator (`StateMachine.cpp`).

Machine integers are modelled as `Nat`; all CRC32 state stays below `2 ^ 32`
because every operation involved (xor of 32-bit values, shift right) preserves
that bound, so no explicit reduction is needed.  Byte lists model memory
buffers; flash memory is a `Nat → Nat` byte map.
-/

namespace PewPew

/-! ## Constants from `bl_protocol.h` and `bl_config.h` -/

def BL_FLASH_PAGE_SIZE : Nat := 64
def BL_BOOT_STATE_ADDR : Nat := 0xC00
def BL_APP_HEADER_ADDR : Nat := 0xC40
def BL_APP_CODE_ADDR : Nat := 0xC80
def BL_FLASH_END : Nat := 0x4000
def BL_APP_MAX_SIZE : Nat := BL_FLASH_END - BL_APP_CODE_ADDR
def BL_APP_MAGIC : Nat := 0x454D4F57

def POST_NO_APP : Nat := 1
def POST_INVALID_HEADER : Nat := 2
def POST_CRC_MISMATCH : Nat := 3

def BL_STATUS_IDLE : Nat := 0x00
def BL_STATUS_BUSY : Nat := 0x01
def BL_STATUS_SUCCESS : Nat := 0x40
def BL_STATUS_ERROR : Nat := 0x80

def BL_ERR_NONE : Nat := 0x00
def BL_ERR_INVALID_CMD : Nat := 0x01
def BL_ERR_INVALID_ADDR : Nat := 0x02
def BL_ERR_FLASH_ERASE : Nat := 0x03
def BL_ERR_FLASH_WRITE : Nat := 0x04
def BL_ERR_CRC_MISMATCH : Nat := 0x05
def BL_ERR_APP_INVALID : Nat := 0x06

def BL_CMD_ERASE : Nat := 0x01
def BL_CMD_WRITE : Nat := 0x02
def BL_CMD_VERIFY : Nat := 0x03
def BL_CMD_BOOT : Nat := 0x04

def REG_BL_CMD : Nat := 0xF8
def REG_BL_ADDR_L : Nat := 0xF9
def REG_BL_ADDR_H : Nat := 0xFA
def REG_BL_DATA : Nat := 0xFB
def REG_BL_CRC_0 : Nat := 0xFC
def REG_BL_CRC_1 : Nat := 0xFD
def REG_BL_CRC_2 : Nat := 0xFE
def REG_BL_CRC_3 : Nat := 0xFF

/-! ## CRC32 (`crc32.c`)

One inner-loop iteration of `crc32_byte`: conditional shift with the
reversed polynomial 0xEDB88320. -/

def crc32_step (crc : Nat) : Nat :=
  if crc &&& 1 = 1 then (crc >>> 1) ^^^ 0xEDB88320 else crc >>> 1

/-- `crc32_byte` from `crc32.c`: xor the byte into the state, then run the
8-iteration shift loop. -/
def crc32_byte (crc byte : Nat) : Nat :=
  crc32_step^[8] (crc ^^^ byte)

def crc32_init : Nat := 0xFFFFFFFF

/-- `crc32_update`: fold `crc32_byte` over the buffer. -/
def crc32_update (crc : Nat) (data : List Nat) : Nat :=
  data.foldl crc32_byte crc

def crc32_final (crc : Nat) : Nat := crc ^^^ 0xFFFFFFFF

/-- One-call `crc32` over a buffer. -/
def crc32 (data : List Nat) : Nat :=
  crc32_final (crc32_update crc32_init data)

theorem crc32_update_append (c : Nat) (xs ys : List Nat) :
    crc32_update c (xs ++ ys) = crc32_update (crc32_update c xs) ys := by
  simp [crc32_update, List.foldl_append]

/-! ### Algebraic facts about the CRC step

`crc32_step` is GF(2)-linear (xor-compatible), keeps its state below `2 ^ 32`,
and — crucially for error detection — sends no nonzero 32-bit state to zero,
because the polynomial 0xEDB88320 has its top bit set. -/

theorem shiftRight_one_xor (a b : Nat) :
    (a ^^^ b) >>> 1 = (a >>> 1) ^^^ (b >>> 1) := by
  apply Nat.eq_of_testBit_eq
  intro i
  simp [Nat.testBit_shiftRight, Nat.testBit_xor]

theorem xor_pair_cancel (x y p : Nat) : (x ^^^ p) ^^^ (y ^^^ p) = x ^^^ y := by
  rw [Nat.xor_comm y p, ← Nat.xor_assoc, Nat.xor_assoc x p p, Nat.xor_self,
    Nat.xor_zero]

theorem crc32_step_eq (a : Nat) :
    crc32_step a = (a >>> 1) ^^^ (a &&& 1) * 0xEDB88320 := by
  unfold crc32_step
  have ha : a &&& 1 = 0 ∨ a &&& 1 = 1 := by
    rw [Nat.and_one_is_mod]; exact Nat.mod_two_eq_zero_or_one a
  rcases ha with h | h <;> simp [h]

theorem crc32_step_xor (a b : Nat) :
    crc32_step (a ^^^ b) = crc32_step a ^^^ crc32_step b := by
  rw [crc32_step_eq (a ^^^ b), crc32_step_eq a, crc32_step_eq b,
    shiftRight_one_xor, Nat.and_xor_distrib_right]
  have ha : a &&& 1 = 0 ∨ a &&& 1 = 1 := by
    rw [Nat.and_one_is_mod]; exact Nat.mod_two_eq_zero_or_one a
  have hb : b &&& 1 = 0 ∨ b &&& 1 = 1 := by
    rw [Nat.and_one_is_mod]; exact Nat.mod_two_eq_zero_or_one b
  rcases ha with h1 | h1 <;> rcases hb with h2 | h2 <;>
      simp only [h1, h2, Nat.zero_xor, Nat.xor_zero, Nat.xor_self,
        Nat.zero_mul, Nat.one_mul]
  · rw [Nat.xor_assoc]
  · rw [Nat.xor_assoc, Nat.xor_comm (b >>> 1) 0xEDB88320, ← Nat.xor_assoc]
  · exact (xor_pair_cancel _ _ _).symm

theorem crc32_step_iter_xor (n a b : Nat) :
    crc32_step^[n] (a ^^^ b) = crc32_step^[n] a ^^^ crc32_step^[n] b := by
  induction n generalizing a b with
  | zero => rfl
  | succ n ih =>
      rw [Function.iterate_succ_apply, Function.iterate_succ_apply,
        Function.iterate_succ_apply, crc32_step_xor, ih]

theorem crc32_step_lt (a : Nat) (h : a < 2 ^ 32) : crc32_step a < 2 ^ 32 := by
  unfold crc32_step
  have h1 : a >>> 1 < 2 ^ 32 := by
    rw [Nat.shiftRight_eq_div_pow]
    exact Nat.lt_of_le_of_lt (Nat.div_le_self a (2 ^ 1)) h
  split
  · exact Nat.xor_lt_two_pow h1 (by norm_num)
  · exact h1

theorem crc32_step_iter_lt (n a : Nat) (h : a < 2 ^ 32) :
    crc32_step^[n] a < 2 ^ 32 := by
  induction n generalizing a with
  | zero => exact h
  | succ n ih => rw [Function.iterate_succ_apply]; exact ih _ (crc32_step_lt a h)

theorem crc32_step_eq_zero (a : Nat) (hlt : a < 2 ^ 32)
    (h : crc32_step a = 0) : a = 0 := by
  unfold crc32_step at h
  have hdiv : a >>> 1 = a / 2 := by rw [Nat.shiftRight_eq_div_pow]
  have hmod : a &&& 1 = a % 2 := Nat.and_one_is_mod a
  split at h
  · rename_i hodd
    have : a >>> 1 = 0xEDB88320 := (Nat.xor_eq_zero.mp h)
    rw [hdiv] at this
    omega
  · rename_i heven
    rw [hdiv] at h
    rw [hmod] at heven
    omega

theorem crc32_step_iter_ne_zero (n a : Nat) (hlt : a < 2 ^ 32) (h : a ≠ 0) :
    crc32_step^[n] a ≠ 0 := by
  induction n generalizing a with
  | zero => exact h
  | succ n ih =>
      rw [Function.iterate_succ_apply]
      exact ih _ (crc32_step_lt a hlt)
        (fun hz => h (crc32_step_eq_zero a hlt hz))

theorem xor_shuffle (c d b e : Nat) :
    (c ^^^ d) ^^^ (b ^^^ e) = (c ^^^ b) ^^^ (d ^^^ e) := by
  rw [Nat.xor_assoc, Nat.xor_assoc, ← Nat.xor_assoc d b e,
    Nat.xor_comm d b, Nat.xor_assoc b d e]

theorem crc32_byte_xor (c d b e : Nat) :
    crc32_byte (c ^^^ d) (b ^^^ e) = crc32_byte c b ^^^ crc32_byte d e := by
  unfold crc32_byte
  rw [xor_shuffle, crc32_step_iter_xor]

theorem crc32_byte_xor_state (s δ b : Nat) :
    crc32_byte (s ^^^ δ) b = crc32_byte s b ^^^ crc32_step^[8] δ := by
  unfold crc32_byte
  rw [show (s ^^^ δ) ^^^ b = (s ^^^ b) ^^^ δ by
    rw [Nat.xor_assoc, Nat.xor_comm δ b, ← Nat.xor_assoc]]
  exact crc32_step_iter_xor 8 (s ^^^ b) δ

theorem crc32_update_xor_state (m : List Nat) (s δ : Nat) :
    crc32_update (s ^^^ δ) m =
      crc32_update s m ^^^ crc32_step^[8 * m.length] δ := by
  induction m generalizing s δ with
  | nil => simp [crc32_update]
  | cons b rest ih =>
      show crc32_update (crc32_byte (s ^^^ δ) b) rest = _
      rw [crc32_byte_xor_state, ih (crc32_byte s b) (crc32_step^[8] δ),
        ← Function.iterate_add_apply]
      have : 8 * rest.length + 8 = 8 * (b :: rest).length := by
        simp [List.length_cons]; ring
      rw [this]
      rfl

theorem crc32_byte_xor_data (s x e : Nat) :
    crc32_byte s (x ^^^ e) = crc32_byte s x ^^^ crc32_step^[8] e := by
  unfold crc32_byte
  rw [← Nat.xor_assoc, crc32_step_iter_xor]

theorem crc32_final_xor (x d : Nat) :
    crc32_final (x ^^^ d) = crc32_final x ^^^ d := by
  unfold crc32_final
  rw [Nat.xor_assoc, Nat.xor_comm d _, ← Nat.xor_assoc]

theorem xor_eq_self_iff (a d : Nat) (h : a ^^^ d = a) : d = 0 := by
  have h1 : d = a ^^^ (a ^^^ d) := by
    rw [← Nat.xor_assoc, Nat.xor_self, Nat.zero_xor]
  rw [h, Nat.xor_self] at h1
  exact h1

/-- Changing the byte at position `j` of a buffer changes the CRC by the
image of the byte difference under `8 * (length - j)` steps of the LFSR. -/
theorem crc32_set (m : List Nat) (j b : Nat) (hj : j < m.length) :
    crc32 (m.set j b) =
      crc32 m ^^^ crc32_step^[8 * (m.length - j)] (m.getD j 0 ^^^ b) := by
  have hd : m.drop j = m.getD j 0 :: m.drop (j + 1) := by
    rw [List.getD_eq_getElem m 0 hj]
    exact List.drop_eq_getElem_cons hj
  have hm : crc32 m =
      crc32_final (crc32_update
        (crc32_byte (crc32_update crc32_init (m.take j)) (m.getD j 0))
        (m.drop (j + 1))) := by
    conv_lhs => rw [← List.take_append_drop j m, hd]
    rw [crc32, crc32_update_append]
    rfl
  have hset : crc32 (m.set j b) =
      crc32_final (crc32_update
        (crc32_byte (crc32_update crc32_init (m.take j)) b)
        (m.drop (j + 1))) := by
    rw [List.set_eq_take_cons_drop b hj, crc32, crc32_update_append]
    rfl
  have hbyte : crc32_byte (crc32_update crc32_init (m.take j)) b =
      crc32_byte (crc32_update crc32_init (m.take j)) (m.getD j 0) ^^^
        crc32_step^[8] (m.getD j 0 ^^^ b) := by
    conv_lhs => rw [show b = m.getD j 0 ^^^ (m.getD j 0 ^^^ b) by
      rw [← Nat.xor_assoc, Nat.xor_self, Nat.zero_xor]]
    exact crc32_byte_xor_data _ _ _
  rw [hset, hbyte, crc32_update_xor_state, crc32_final_xor, ← hm,
    ← Function.iterate_add_apply]
  have hlen : 8 * (m.drop (j + 1)).length + 8 = 8 * (m.length - j) := by
    rw [List.length_drop]
    omega
  rw [hlen]

/-- CRC32 detects every single-byte modification of a buffer. -/
theorem crc32_set_ne (m : List Nat) (j b : Nat) (hj : j < m.length)
    (hmj : m.getD j 0 < 2 ^ 32) (hb : b < 2 ^ 32) (hne : b ≠ m.getD j 0) :
    crc32 (m.set j b) ≠ crc32 m := by
  rw [crc32_set m j b hj]
  intro h
  have hz := xor_eq_self_iff _ _ h
  refine crc32_step_iter_ne_zero _ _ (Nat.xor_lt_two_pow hmj hb) ?_ hz
  intro he
  exact hne (Nat.xor_eq_zero.mp he).symm

/-- C9: CRC32 of the empty buffer is 0, and the one-call CRC over any buffer
equals the incremental computation over any split of the buffer into two
pieces. -/
theorem C9_crc32_empty_and_split :
    crc32 [] = 0 ∧
    ∀ xs ys : List Nat,
      crc32 (xs ++ ys) =
        crc32_final (crc32_update (crc32_update crc32_init xs) ys) := by
  constructor
  · decide
  · intro xs ys
    simp [crc32, crc32_update_append]

/-! ## App header (`bl_protocol.h`) and boot image validator (bootloader main)

The packed `app_header_t` struct occupies 64 bytes of little-endian memory:
magic(4) at 0, fw_ver_major(1) at 4, fw_ver_minor(1) at 5, bl_ver_min(1) at 6,
hw_type(1) at 7, app_size(4) at 8, app_crc32(4) at 12, entry_point(4) at 16,
header_crc32(4) at 20, reserved(40) at 24.  The validator reads the header
from flash, so we model it on the raw byte list and decode fields as the
little-endian machine does. -/

/-- Little-endian 32-bit load at byte offset `i` of a byte list. -/
def le32at (l : List Nat) (i : Nat) : Nat :=
  l.getD i 0 + 256 * l.getD (i + 1) 0 + 65536 * l.getD (i + 2) 0 +
    16777216 * l.getD (i + 3) 0

/-- Little-endian 32-bit store: the four bytes of `v`. -/
def enc32 (v : Nat) : List Nat :=
  [v % 256, v / 256 % 256, v / 65536 % 256, v / 16777216 % 256]

/-- In-memory `app_header_t` record as built by the host. -/
structure app_header_t where
  magic : Nat
  fw_ver_major : Nat
  fw_ver_minor : Nat
  bl_ver_min : Nat
  hw_type : Nat
  app_size : Nat
  app_crc32 : Nat
  entry_point : Nat
  header_crc32 : Nat

/-- The first 24 bytes of the packed struct, as laid out in memory. -/
def headerBytes24 (h : app_header_t) : List Nat :=
  enc32 h.magic ++ [h.fw_ver_major, h.fw_ver_minor, h.bl_ver_min, h.hw_type] ++
    enc32 h.app_size ++ enc32 h.app_crc32 ++ enc32 h.entry_point ++
    enc32 h.header_crc32

/-- All 64 bytes of the packed struct (`memset(&header, 0, sizeof(header))`
zeroes the 40 reserved bytes before the fields are filled in). -/
def headerBytes (h : app_header_t) : List Nat :=
  headerBytes24 h ++ List.replicate 40 0

/-- `validate_app` from the bootloader main file.  `hdr` is the 64-byte flash
page at `BL_APP_HEADER_ADDR`; `code` is the flash region starting at
`BL_APP_CODE_ADDR`, of which the first `app_size` bytes are checksummed. -/
def validate_app (hdr code : List Nat) : Nat :=
  if le32at hdr 0 = 0xFFFFFFFF then POST_NO_APP
  else if le32at hdr 0 ≠ BL_APP_MAGIC then POST_INVALID_HEADER
  else if le32at hdr 16 ≠ BL_APP_CODE_ADDR then POST_INVALID_HEADER
  else if le32at hdr 8 = 0 ∨ le32at hdr 8 > BL_APP_MAX_SIZE then
    POST_INVALID_HEADER
  else if crc32 (hdr.take 24) ≠ le32at hdr 20 then POST_INVALID_HEADER
  else if crc32 (code.take (le32at hdr 8)) ≠ le32at hdr 12 then
    POST_CRC_MISMATCH
  else 0

/-! ## Host-side header generator (`StateMachine::programFirmware`) -/

/-- Host-side view of a catalog entry (`firmware_info_t`): the image bytes
plus the metadata fields used to build the header. -/
structure firmware_info_t where
  data : List Nat
  load_addr : Nat
  hw_type : Nat
  version_major : Nat
  version_minor : Nat

/-- Header construction from `StateMachine::programFirmware`: zero the
struct, fill the fields, set `app_crc32` to the CRC of the image, then set
`header_crc32` to the CRC of the first 24 struct bytes computed while the
`header_crc32` field still holds 0. -/
def makeAppHeader (fw : firmware_info_t) : app_header_t :=
  let h0 : app_header_t :=
    { magic := BL_APP_MAGIC
      fw_ver_major := fw.version_major
      fw_ver_minor := fw.version_minor
      bl_ver_min := 1
      hw_type := fw.hw_type
      app_size := fw.data.length
      app_crc32 := crc32 fw.data
      entry_point := fw.load_addr
      header_crc32 := 0 }
  { h0 with header_crc32 := crc32 (headerBytes24 h0) }

/-! ### Byte-level helpers -/

theorem getD_set_ne (l : List Nat) (j k b : Nat) (h : j ≠ k) :
    (l.set j b).getD k 0 = l.getD k 0 := by
  simp [List.getD, List.getElem?_set_ne h]

theorem getD_set_self (l : List Nat) (j b : Nat) (h : j < l.length) :
    (l.set j b).getD j 0 = b := by
  rw [List.getD_eq_getElem _ _ (by simpa using h)]
  simp

theorem getD_take_eq (l : List Nat) (j n : Nat) (h : j < n) :
    (l.take n).getD j 0 = l.getD j 0 := by
  simp [List.getD, List.getElem?_take, h]

theorem getD_mem_lt (l : List Nat) (j : Nat) (hj : j < l.length)
    (h : ∀ x ∈ l, x < 256) : l.getD j 0 < 256 := by
  rw [List.getD_eq_getElem l 0 hj]
  exact h _ (List.getElem_mem hj)

/-- Byte `k` (little-endian) of a machine word. -/
def byteAt (x k : Nat) : Nat := x / 2 ^ (8 * k) % 256

theorem shiftRight_xor (x y n : Nat) :
    (x ^^^ y) >>> n = x >>> n ^^^ y >>> n := by
  apply Nat.eq_of_testBit_eq
  intro i
  simp [Nat.testBit_shiftRight, Nat.testBit_xor]

theorem mod_two_pow_xor (x y n : Nat) :
    (x ^^^ y) % 2 ^ n = x % 2 ^ n ^^^ y % 2 ^ n := by
  apply Nat.eq_of_testBit_eq
  intro i
  simp only [Nat.testBit_mod_two_pow, Nat.testBit_xor]
  by_cases h : i < n <;> simp [h]

theorem byteAt_xor (x y k : Nat) :
    byteAt (x ^^^ y) k = byteAt x k ^^^ byteAt y k := by
  unfold byteAt
  rw [← Nat.shiftRight_eq_div_pow, ← Nat.shiftRight_eq_div_pow,
    ← Nat.shiftRight_eq_div_pow, shiftRight_xor,
    show (256 : Nat) = 2 ^ 8 from rfl]
  exact mod_two_pow_xor _ _ 8

theorem byteAt_le32at (l : List Nat) (i k : Nat) (hk : k < 4)
    (h0 : l.getD i 0 < 256) (h1 : l.getD (i + 1) 0 < 256)
    (h2 : l.getD (i + 2) 0 < 256) (h3 : l.getD (i + 3) 0 < 256) :
    byteAt (le32at l i) k = l.getD (i + k) 0 := by
  unfold byteAt le32at
  interval_cases k <;>
    (norm_num [List.getD] at h0 h1 h2 h3 ⊢; omega)

theorem le32at_lt (l : List Nat) (i : Nat)
    (h0 : l.getD i 0 < 256) (h1 : l.getD (i + 1) 0 < 256)
    (h2 : l.getD (i + 2) 0 < 256) (h3 : l.getD (i + 3) 0 < 256) :
    le32at l i < 2 ^ 32 := by
  unfold le32at
  norm_num [List.getD] at h0 h1 h2 h3 ⊢
  omega

theorem eq_of_byteAt_eq (x y : Nat) (hx : x < 2 ^ 32) (hy : y < 2 ^ 32)
    (h : ∀ k, k < 4 → byteAt x k = byteAt y k) : x = y := by
  have h0 := h 0 (by norm_num)
  have h1 := h 1 (by norm_num)
  have h2 := h 2 (by norm_num)
  have h3 := h 3 (by norm_num)
  unfold byteAt at h0 h1 h2 h3
  norm_num at h0 h1 h2 h3 hx hy
  omega

/-! ### C1: host-generated headers versus the boot validator

`StateMachine::programFirmware` computes `header_crc32 = crc32(&header, 24)`
while the `header_crc32` field (struct offsets 20..23) still holds zero, then
stores the result into those very bytes.  `validate_app` recomputes
`crc32(hdr, 24)` over the STORED bytes — in which offsets 20..23 now hold the
nonzero stored CRC — and compares it with the stored field.  The two
computations therefore disagree and check 5 fails. -/

set_option maxRecDepth 100000 in
/-- C1: divergence witness.  For the concrete 4-byte application image
`[0x13, 0x37, 0xAB, 0xCD]`, the header produced by the host HeaderGenerator,
stored together with the image, is rejected by `validate_app` with
`POST_INVALID_HEADER` (the header-CRC check fails), so the jump-to-app
outcome is NOT selected, contrary to the round-trip claim. -/
theorem C1_roundtrip_fails_on_code :
    validate_app
      (headerBytes (makeAppHeader
        ⟨[0x13, 0x37, 0xAB, 0xCD], BL_APP_CODE_ADDR, 4, 1, 0⟩))
      [0x13, 0x37, 0xAB, 0xCD] = POST_INVALID_HEADER := by
  decide

/-! ### C2: the check sequence and single-byte mutations -/

/-- Short-circuiting check sequence: the diagnostic of the first failing
check, `0` when no check fails. -/
def firstFailCode : List (Bool × Nat) → Nat
  | [] => 0
  | (b, c) :: rest => if b then c else firstFailCode rest

/-- The six checks of `validate_app`, in source order, each paired with its
diagnostic code. -/
def bootCheckList (hdr code : List Nat) : List (Bool × Nat) :=
  [(decide (le32at hdr 0 = 0xFFFFFFFF), POST_NO_APP),
   (decide (le32at hdr 0 ≠ BL_APP_MAGIC), POST_INVALID_HEADER),
   (decide (le32at hdr 16 ≠ BL_APP_CODE_ADDR), POST_INVALID_HEADER),
   (decide (le32at hdr 8 = 0 ∨ le32at hdr 8 > BL_APP_MAX_SIZE),
     POST_INVALID_HEADER),
   (decide (crc32 (hdr.take 24) ≠ le32at hdr 20), POST_INVALID_HEADER),
   (decide (crc32 (code.take (le32at hdr 8)) ≠ le32at hdr 12),
     POST_CRC_MISMATCH)]

theorem validate_app_eq_firstFail (hdr code : List Nat) :
    validate_app hdr code = firstFailCode (bootCheckList hdr code) := by
  unfold validate_app bootCheckList
  split_ifs <;> simp [firstFailCode, *]

/-- Inversion: a validating header satisfies each individual check. -/
theorem validate_app_zero_inv (hdr code : List Nat)
    (h : validate_app hdr code = 0) :
    le32at hdr 0 = BL_APP_MAGIC ∧ le32at hdr 16 = BL_APP_CODE_ADDR ∧
      le32at hdr 8 ≠ 0 ∧ le32at hdr 8 ≤ BL_APP_MAX_SIZE ∧
      crc32 (hdr.take 24) = le32at hdr 20 ∧
      crc32 (code.take (le32at hdr 8)) = le32at hdr 12 := by
  unfold validate_app at h
  split_ifs at h with h1 h2 h3 h4 h5 h6
  · exact absurd h (by norm_num [POST_NO_APP])
  · exact absurd h (by norm_num [POST_INVALID_HEADER])
  · exact absurd h (by norm_num [POST_INVALID_HEADER])
  · exact absurd h (by norm_num [POST_INVALID_HEADER])
  · exact absurd h (by norm_num [POST_INVALID_HEADER])
  · exact absurd h (by norm_num [POST_CRC_MISMATCH])
  · push_neg at h2 h3 h4 h5 h6
    exact ⟨h2, h3, h4.1, h4.2, h5, h6⟩

theorem le32at_set_outside (l : List Nat) (i j b : Nat)
    (h : j < i ∨ i + 4 ≤ j) :
    le32at (l.set j b) i = le32at l i := by
  unfold le32at
  rw [getD_set_ne l j i b (by omega), getD_set_ne l j (i + 1) b (by omega),
    getD_set_ne l j (i + 2) b (by omega), getD_set_ne l j (i + 3) b (by omega)]

theorem le32at_set_window (l : List Nat) (i k b : Nat) (hk : k < 4)
    (hikl : i + k < l.length) :
    le32at (l.set (i + k) b) i =
      (if k = 0 then b else l.getD i 0) +
      256 * (if k = 1 then b else l.getD (i + 1) 0) +
      65536 * (if k = 2 then b else l.getD (i + 2) 0) +
      16777216 * (if k = 3 then b else l.getD (i + 3) 0) := by
  unfold le32at
  interval_cases k
  · rw [show i + 0 = i by omega] at hikl ⊢
    rw [getD_set_self l i b hikl, getD_set_ne l i (i + 1) b (by omega),
      getD_set_ne l i (i + 2) b (by omega), getD_set_ne l i (i + 3) b (by omega)]
    norm_num
  · rw [getD_set_self l (i + 1) b hikl, getD_set_ne l (i + 1) i b (by omega),
      getD_set_ne l (i + 1) (i + 2) b (by omega),
      getD_set_ne l (i + 1) (i + 3) b (by omega)]
    norm_num
  · rw [getD_set_self l (i + 2) b hikl, getD_set_ne l (i + 2) i b (by omega),
      getD_set_ne l (i + 2) (i + 1) b (by omega),
      getD_set_ne l (i + 2) (i + 3) b (by omega)]
    norm_num
  · rw [getD_set_self l (i + 3) b hikl, getD_set_ne l (i + 3) i b (by omega),
      getD_set_ne l (i + 3) (i + 1) b (by omega),
      getD_set_ne l (i + 3) (i + 2) b (by omega)]
    norm_num

theorem le32at_set_ne_inside (l : List Nat) (i k b : Nat) (hk : k < 4)
    (hikl : i + k < l.length) (hb : b < 256)
    (hne : b ≠ l.getD (i + k) 0)
    (h0 : l.getD i 0 < 256) (h1 : l.getD (i + 1) 0 < 256)
    (h2 : l.getD (i + 2) 0 < 256) (h3 : l.getD (i + 3) 0 < 256) :
    le32at (l.set (i + k) b) i ≠ le32at l i := by
  rw [le32at_set_window l i k b hk hikl]
  unfold le32at
  interval_cases k <;>
    (norm_num [List.getD] at hne h0 h1 h2 h3 ⊢; omega)

theorem byteAt_mul_pow (e k q : Nat) (he : e < 256) (hk : k < 4) (hq : q < 4) :
    byteAt (e * 2 ^ (8 * k)) q = if q = k then e else 0 := by
  unfold byteAt
  interval_cases k <;> interval_cases q <;>
    first
      | (norm_num; omega)
      | norm_num
      | omega

set_option maxRecDepth 100000 in
/-- A nonzero byte fed through the remaining LFSR steps never reproduces
itself at its own byte position: mutating a stored CRC byte cannot keep the
header-CRC check consistent. -/
theorem crc32_step_iter_ne_mul_pow (k e : Nat) (hk : k < 4) (he : e < 256)
    (hne : e ≠ 0) : crc32_step^[8 * (4 - k)] e ≠ e * 2 ^ (8 * k) := by
  interval_cases k
  · exact (by decide :
      ∀ e, e < 256 → e ≠ 0 → crc32_step^[8 * (4 - 0)] e ≠ e * 2 ^ (8 * 0))
      e he hne
  · exact (by decide :
      ∀ e, e < 256 → e ≠ 0 → crc32_step^[8 * (4 - 1)] e ≠ e * 2 ^ (8 * 1))
      e he hne
  · exact (by decide :
      ∀ e, e < 256 → e ≠ 0 → crc32_step^[8 * (4 - 2)] e ≠ e * 2 ^ (8 * 2))
      e he hne
  · exact (by decide :
      ∀ e, e < 256 → e ≠ 0 → crc32_step^[8 * (4 - 3)] e ≠ e * 2 ^ (8 * 3))
      e he hne

/-- Mutating one byte of the magic field of a validating header trips
check 2 (and never looks like erased flash, because the other magic bytes
are not 0xFF). -/
theorem validate_app_set_magic (hdr code : List Nat) (k b : Nat)
    (hlen : hdr.length = 64) (hbytes : ∀ x ∈ hdr, x < 256) (hb : b < 256)
    (hk : k < 4) (hne : b ≠ hdr.getD k 0)
    (hvalid : validate_app hdr code = 0) :
    validate_app (hdr.set k b) code = POST_INVALID_HEADER := by
  obtain ⟨hmagic, -, -, -, -, -⟩ := validate_app_zero_inv hdr code hvalid
  have h0 : hdr.getD 0 0 < 256 := getD_mem_lt hdr 0 (by omega) hbytes
  have h1 : hdr.getD 1 0 < 256 := getD_mem_lt hdr 1 (by omega) hbytes
  have h2 : hdr.getD 2 0 < 256 := getD_mem_lt hdr 2 (by omega) hbytes
  have h3 : hdr.getD 3 0 < 256 := getD_mem_lt hdr 3 (by omega) hbytes
  have hw := le32at_set_window hdr 0 k b hk (by omega)
  rw [Nat.zero_add] at hw
  have hmagic' := hmagic
  rw [show BL_APP_MAGIC = 0x454D4F57 from rfl] at hmagic'
  unfold le32at at hmagic'
  have hB : le32at (hdr.set k b) 0 ≠ BL_APP_MAGIC := by
    have h := le32at_set_ne_inside hdr 0 k b hk (by omega) hb
      (by rw [Nat.zero_add]; exact hne) h0 h1 h2 h3
    rw [Nat.zero_add, hmagic] at h
    exact h
  have hA : le32at (hdr.set k b) 0 ≠ 0xFFFFFFFF := by
    intro hEq
    rw [hw] at hEq
    interval_cases k <;>
      (norm_num [List.getD] at hEq hmagic' h0 h1 h2 h3; omega)
  unfold validate_app
  rw [if_neg hA, if_pos hB]

/-- Mutating one byte of the entry-point field of a validating header trips
check 3. -/
theorem validate_app_set_entry (hdr code : List Nat) (k b : Nat)
    (hlen : hdr.length = 64) (hbytes : ∀ x ∈ hdr, x < 256) (hb : b < 256)
    (hk : k < 4) (hne : b ≠ hdr.getD (16 + k) 0)
    (hvalid : validate_app hdr code = 0) :
    validate_app (hdr.set (16 + k) b) code = POST_INVALID_HEADER := by
  obtain ⟨hmagic, hentry, -, -, -, -⟩ := validate_app_zero_inv hdr code hvalid
  have h16 : hdr.getD 16 0 < 256 := getD_mem_lt hdr 16 (by omega) hbytes
  have h17 : hdr.getD 17 0 < 256 := getD_mem_lt hdr 17 (by omega) hbytes
  have h18 : hdr.getD 18 0 < 256 := getD_mem_lt hdr 18 (by omega) hbytes
  have h19 : hdr.getD 19 0 < 256 := getD_mem_lt hdr 19 (by omega) hbytes
  have hout : le32at (hdr.set (16 + k) b) 0 = le32at hdr 0 :=
    le32at_set_outside hdr 0 (16 + k) b (Or.inr (by omega))
  have hA : le32at (hdr.set (16 + k) b) 0 ≠ 0xFFFFFFFF := by
    rw [hout, hmagic]
    decide
  have hB : ¬le32at (hdr.set (16 + k) b) 0 ≠ BL_APP_MAGIC := by
    rw [hout, hmagic]
    simp
  have hC : le32at (hdr.set (16 + k) b) 16 ≠ BL_APP_CODE_ADDR := by
    have h := le32at_set_ne_inside hdr 16 k b hk (by omega) hb hne
      h16 h17 h18 h19
    rw [hentry] at h
    exact h
  unfold validate_app
  rw [if_neg hA, if_neg hB, if_pos hC]

/-- Mutating one byte of the app-size field of a validating header trips
check 4 (size becomes 0 or too large) or check 5 (the header CRC no longer
matches, by single-byte error detection). -/
theorem validate_app_set_size (hdr code : List Nat) (k b : Nat)
    (hlen : hdr.length = 64) (hbytes : ∀ x ∈ hdr, x < 256) (hb : b < 256)
    (hk : k < 4) (hne : b ≠ hdr.getD (8 + k) 0)
    (hvalid : validate_app hdr code = 0) :
    validate_app (hdr.set (8 + k) b) code = POST_INVALID_HEADER := by
  obtain ⟨hmagic, hentry, -, -, hhcrc, -⟩ := validate_app_zero_inv hdr code hvalid
  have hout0 : le32at (hdr.set (8 + k) b) 0 = le32at hdr 0 :=
    le32at_set_outside hdr 0 (8 + k) b (Or.inr (by omega))
  have hout16 : le32at (hdr.set (8 + k) b) 16 = le32at hdr 16 :=
    le32at_set_outside hdr 16 (8 + k) b (Or.inl (by omega))
  have hout20 : le32at (hdr.set (8 + k) b) 20 = le32at hdr 20 :=
    le32at_set_outside hdr 20 (8 + k) b (Or.inl (by omega))
  have hA : le32at (hdr.set (8 + k) b) 0 ≠ 0xFFFFFFFF := by
    rw [hout0, hmagic]
    decide
  have hB : ¬le32at (hdr.set (8 + k) b) 0 ≠ BL_APP_MAGIC := by
    rw [hout0, hmagic]
    simp
  have hC : ¬le32at (hdr.set (8 + k) b) 16 ≠ BL_APP_CODE_ADDR := by
    rw [hout16, hentry]
    simp
  by_cases hsz : le32at (hdr.set (8 + k) b) 8 = 0 ∨
      le32at (hdr.set (8 + k) b) 8 > BL_APP_MAX_SIZE
  · unfold validate_app
    rw [if_neg hA, if_neg hB, if_neg hC, if_pos hsz]
  · have hD : crc32 ((hdr.set (8 + k) b).take 24) ≠
        le32at (hdr.set (8 + k) b) 20 := by
      rw [hout20, ← hhcrc, List.set_take]
      apply crc32_set_ne (hdr.take 24) (8 + k) b
        (by rw [List.length_take]; omega)
      · rw [getD_take_eq hdr (8 + k) 24 (by omega)]
        have := getD_mem_lt hdr (8 + k) (by omega) hbytes
        omega
      · omega
      · rw [getD_take_eq hdr (8 + k) 24 (by omega)]
        exact hne
    unfold validate_app
    rw [if_neg hA, if_neg hB, if_neg hC, if_neg hsz, if_pos hD]

/-- Mutating one byte of the stored header-CRC field of a validating header
trips check 5: the recomputed CRC changes by an LFSR image of the byte
difference, while the stored CRC changes by the difference at its own byte
position, and those two changes never coincide. -/
theorem validate_app_set_hcrc (hdr code : List Nat) (k b : Nat)
    (hlen : hdr.length = 64) (hbytes : ∀ x ∈ hdr, x < 256) (hb : b < 256)
    (hk : k < 4) (hne : b ≠ hdr.getD (20 + k) 0)
    (hvalid : validate_app hdr code = 0) :
    validate_app (hdr.set (20 + k) b) code = POST_INVALID_HEADER := by
  obtain ⟨hmagic, hentry, hsz0, hszmax, hhcrc, -⟩ :=
    validate_app_zero_inv hdr code hvalid
  have h20 : hdr.getD 20 0 < 256 := getD_mem_lt hdr 20 (by omega) hbytes
  have h21 : hdr.getD 21 0 < 256 := getD_mem_lt hdr 21 (by omega) hbytes
  have h22 : hdr.getD 22 0 < 256 := getD_mem_lt hdr 22 (by omega) hbytes
  have h23 : hdr.getD 23 0 < 256 := getD_mem_lt hdr 23 (by omega) hbytes
  have hout0 : le32at (hdr.set (20 + k) b) 0 = le32at hdr 0 :=
    le32at_set_outside hdr 0 (20 + k) b (Or.inr (by omega))
  have hout16 : le32at (hdr.set (20 + k) b) 16 = le32at hdr 16 :=
    le32at_set_outside hdr 16 (20 + k) b (Or.inr (by omega))
  have hout8 : le32at (hdr.set (20 + k) b) 8 = le32at hdr 8 :=
    le32at_set_outside hdr 8 (20 + k) b (Or.inr (by omega))
  have hA : le32at (hdr.set (20 + k) b) 0 ≠ 0xFFFFFFFF := by
    rw [hout0, hmagic]
    decide
  have hB : ¬le32at (hdr.set (20 + k) b) 0 ≠ BL_APP_MAGIC := by
    rw [hout0, hmagic]
    simp
  have hC : ¬le32at (hdr.set (20 + k) b) 16 ≠ BL_APP_CODE_ADDR := by
    rw [hout16, hentry]
    simp
  have hD : ¬(le32at (hdr.set (20 + k) b) 8 = 0 ∨
      le32at (hdr.set (20 + k) b) 8 > BL_APP_MAX_SIZE) := by
    rw [hout8]
    push_neg
    exact ⟨hsz0, hszmax⟩
  -- the byte difference fed into the CRC
  set e : Nat := hdr.getD (20 + k) 0 ^^^ b with he_def
  have hbk : hdr.getD (20 + k) 0 < 256 :=
    getD_mem_lt hdr (20 + k) (by omega) hbytes
  have he256 : e < 256 := by
    rw [he_def, show (256 : Nat) = 2 ^ 8 from rfl]
    exact Nat.xor_lt_two_pow (by omega) (by omega)
  have hene : e ≠ 0 := by
    rw [he_def]
    intro hz
    exact hne (Nat.xor_eq_zero.mp hz).symm
  have hE : crc32 ((hdr.set (20 + k) b).take 24) ≠
      le32at (hdr.set (20 + k) b) 20 := by
    rw [List.set_take]
    have hlm : (hdr.take 24).length = 24 := by rw [List.length_take]; omega
    have hcs := crc32_set (hdr.take 24) (20 + k) b (by omega)
    rw [hlm, getD_take_eq hdr (20 + k) 24 (by omega), ← he_def,
      show 24 - (20 + k) = 4 - k by omega] at hcs
    rw [hcs, hhcrc]
    intro hEq
    -- the LFSR image of the byte difference
    set Δ : Nat := crc32_step^[8 * (4 - k)] e with hΔ_def
    have hΔlt : Δ < 2 ^ 32 := crc32_step_iter_lt _ _ (by omega)
    have hΔval : Δ = le32at hdr 20 ^^^ le32at (hdr.set (20 + k) b) 20 := by
      rw [← hEq, ← Nat.xor_assoc, Nat.xor_self, Nat.zero_xor]
    -- compare the four bytes of Δ with those of e * 2 ^ (8 * k)
    have hbytesΔ : ∀ q, q < 4 → byteAt Δ q = byteAt (e * 2 ^ (8 * k)) q := by
      intro q hq
      have hsetlen : (hdr.set (20 + k) b).length = 64 := by
        rw [List.length_set]; exact hlen
      have hgd : ∀ q', q' < 4 → (hdr.set (20 + k) b).getD (20 + q') 0 =
          if q' = k then b else hdr.getD (20 + q') 0 := by
        intro q' hq'
        by_cases hqk : q' = k
        · subst hqk
          rw [if_pos rfl]
          exact getD_set_self hdr (20 + q') b (by omega)
        · rw [if_neg hqk]
          exact getD_set_ne hdr (20 + k) (20 + q') b (by omega)
      have hb20 := hgd 0 (by norm_num)
      have hb21 := hgd 1 (by norm_num)
      have hb22 := hgd 2 (by norm_num)
      have hb23 := hgd 3 (by norm_num)
      simp only [Nat.reduceAdd] at hb20 hb21 hb22 hb23
      have hstored : byteAt (le32at (hdr.set (20 + k) b) 20) q =
          if q = k then b else hdr.getD (20 + q) 0 := by
        rw [byteAt_le32at _ 20 q hq]
        · exact hgd q hq
        · rw [hb20]; split <;> omega
        · rw [hb21]; split <;> omega
        · rw [hb22]; split <;> omega
        · rw [hb23]; split <;> omega
      have horig : byteAt (le32at hdr 20) q = hdr.getD (20 + q) 0 :=
        byteAt_le32at hdr 20 q hq h20 h21 h22 h23
      rw [hΔval, byteAt_xor, horig, hstored,
        byteAt_mul_pow e k q he256 hk hq]
      by_cases hqk : q = k
      · subst hqk
        rw [if_pos rfl, if_pos rfl, he_def]
      · rw [if_neg hqk, if_neg hqk, Nat.xor_self]
    have hΔeq : Δ = e * 2 ^ (8 * k) := by
      apply eq_of_byteAt_eq _ _ hΔlt _ hbytesΔ
      calc e * 2 ^ (8 * k) ≤ 255 * 2 ^ (8 * 3) := by
            apply Nat.mul_le_mul (by omega)
            apply Nat.pow_le_pow_right (by norm_num)
            omega
        _ < 2 ^ 32 := by norm_num
    exact crc32_step_iter_ne_mul_pow k e hk he256 hene (hΔ_def ▸ hΔeq)
  unfold validate_app
  rw [if_neg hA, if_neg hB, if_neg hC, if_neg hD, if_pos hE]

/-- Mutating one byte inside the declared application region (header
untouched) trips exactly check 6. -/
theorem validate_app_set_code (hdr code : List Nat) (j b : Nat)
    (hcb : ∀ x ∈ code, x < 256) (hb : b < 256)
    (hvalid : validate_app hdr code = 0)
    (hj : j < le32at hdr 8) (hjc : j < code.length)
    (hne : b ≠ code.getD j 0) :
    validate_app hdr (code.set j b) = POST_CRC_MISMATCH := by
  obtain ⟨hmagic, hentry, hsz0, hszmax, hhcrc, hacrc⟩ :=
    validate_app_zero_inv hdr code hvalid
  have hA : le32at hdr 0 ≠ 0xFFFFFFFF := by rw [hmagic]; decide
  have hB : ¬le32at hdr 0 ≠ BL_APP_MAGIC := by rw [hmagic]; simp
  have hC : ¬le32at hdr 16 ≠ BL_APP_CODE_ADDR := by rw [hentry]; simp
  have hD : ¬(le32at hdr 8 = 0 ∨ le32at hdr 8 > BL_APP_MAX_SIZE) := by
    push_neg
    exact ⟨hsz0, hszmax⟩
  have hE : ¬crc32 (hdr.take 24) ≠ le32at hdr 20 := by
    rw [hhcrc]
    simp
  have hF : crc32 ((code.set j b).take (le32at hdr 8)) ≠ le32at hdr 12 := by
    rw [List.set_take, ← hacrc]
    apply crc32_set_ne (code.take (le32at hdr 8)) j b
      (by rw [List.length_take]; omega)
    · rw [getD_take_eq code j (le32at hdr 8) hj]
      have := getD_mem_lt code j hjc hcb
      omega
    · omega
    · rw [getD_take_eq code j (le32at hdr 8) hj]
      exact hne
  unfold validate_app
  rw [if_neg hA, if_neg hB, if_neg hC, if_neg hD, if_neg hE, if_pos hF]

/-- A concrete header whose stored CRC is a fixpoint of the (buggy)
stored-bytes check, so that `validate_app` succeeds on it; used to witness
the mutation theorems on a validating header. -/
def hdrW : List Nat :=
  [0x57, 0x4F, 0x4D, 0x45, 1, 0, 1, 4, 1, 0, 0, 0, 0x31, 0xCF, 0xD0, 0x4A,
   0x80, 0x0C, 0, 0, 0x46, 0x07, 0x80, 0x3C] ++ List.replicate 40 0xFF

/-- The one-byte application region matching `hdrW`. -/
def codeW : List Nat := [0x42]

/-- A header differing from the erased pattern in a single magic byte:
mutating that byte back to 0xFF makes the magic the erased pattern, so the
validator reports `POST_NO_APP`, not `POST_INVALID_HEADER`. -/
def hdrC : List Nat := 0x57 :: List.replicate 63 0xFF

/-- C2 counterexample: the claim as stated quantifies over arbitrary stored
headers, but for the 64-byte header `hdrC` (magic bytes 57 FF FF FF),
changing magic byte 0 to 0xFF yields the erased pattern and the validator
rejects with `POST_NO_APP`, not `POST_INVALID_HEADER`. -/
theorem C2_counterexample_arbitrary_header :
    hdrC.length = 64 ∧ (0xFF : Nat) < 256 ∧ (0xFF : Nat) ≠ hdrC.getD 0 0 ∧
      validate_app (hdrC.set 0 0xFF) [] ≠ POST_INVALID_HEADER := by
  decide

/-- C2 (amended to headers that validate successfully): for any validating
64-byte stored header, changing any single byte of the magic, app_size,
entry_point or header_crc32 fields makes `validate_app` reject with
`POST_INVALID_HEADER`; changing any single byte inside the declared
`app_size` bytes of the application region (header untouched) makes it
reject with `POST_CRC_MISMATCH`, never `POST_INVALID_HEADER`; and the six
checks run in the fixed source order, short-circuiting at the first
failure. -/
theorem C2_single_byte_mutation :
    (∀ hdr code j b, hdr.length = 64 → (∀ x ∈ hdr, x < 256) → b < 256 →
      (j < 4 ∨ 8 ≤ j ∧ j < 12 ∨ 16 ≤ j ∧ j < 24) →
      b ≠ hdr.getD j 0 → validate_app hdr code = 0 →
      validate_app (hdr.set j b) code = POST_INVALID_HEADER) ∧
    (∀ hdr code j b, (∀ x ∈ code, x < 256) → b < 256 →
      validate_app hdr code = 0 → j < le32at hdr 8 → j < code.length →
      b ≠ code.getD j 0 →
      validate_app hdr (code.set j b) = POST_CRC_MISMATCH) ∧
    (∀ hdr code, validate_app hdr code =
      firstFailCode (bootCheckList hdr code)) := by
  refine ⟨?_, ?_, validate_app_eq_firstFail⟩
  · intro hdr code j b hlen hbytes hb hj hne hvalid
    rcases hj with hj | hj | hj
    · exact validate_app_set_magic hdr code j b hlen hbytes hb hj hne hvalid
    · obtain ⟨k, hk, rfl⟩ : ∃ k, k < 4 ∧ j = 8 + k :=
        ⟨j - 8, by omega, by omega⟩
      exact validate_app_set_size hdr code k b hlen hbytes hb hk hne hvalid
    · by_cases hj20 : j < 20
      · obtain ⟨k, hk, rfl⟩ : ∃ k, k < 4 ∧ j = 16 + k :=
          ⟨j - 16, by omega, by omega⟩
        exact validate_app_set_entry hdr code k b hlen hbytes hb hk hne hvalid
      · obtain ⟨k, hk, rfl⟩ : ∃ k, k < 4 ∧ j = 20 + k :=
          ⟨j - 20, by omega, by omega⟩
        exact validate_app_set_hcrc hdr code k b hlen hbytes hb hk hne hvalid
  · exact validate_app_set_code

set_option maxRecDepth 1000000 in
/-- C2 witness: the fixpoint header `hdrW` validates; mutating magic byte 0
to 0 yields `POST_INVALID_HEADER` via the theorem, and mutating the single
application byte yields `POST_CRC_MISMATCH` via the theorem. -/
theorem C2_single_byte_mutation_witness :
    validate_app hdrW codeW = 0 ∧
      validate_app (hdrW.set 0 0) codeW = POST_INVALID_HEADER ∧
      validate_app hdrW (codeW.set 0 0) = POST_CRC_MISMATCH :=
  ⟨by decide,
   C2_single_byte_mutation.1 hdrW codeW 0 0 (by decide) (by decide)
     (by decide) (Or.inl (by decide)) (by decide) (by decide),
   C2_single_byte_mutation.2.1 hdrW codeW 0 0 (by decide) (by decide)
     (by decide) (by decide) (by decide) (by decide)⟩

/-! ## Flash driver (`bl_flash.c`)

The flash controller is a record: the LOCK bit, the PER (page-erase) and PG
(programming) mode bits, and the memory as a byte map.  Busy-wait outcomes
of `wait_for_flash` (timeout or write-protect error) are an oracle stream
`waits : Nat → Bool` consumed through a call counter.  The hardware unlock
key sequence is modelled as always taking effect.  Programming a word ANDs
the new bits into the cell (NOR flash can only clear bits), which is what
makes the read-back verification able to fail on a non-erased page. -/

structure FlashCtl where
  lock : Bool
  per : Bool
  pg : Bool
  mem : Nat → Nat

def PAGE_BUFFER_SIZE : Nat := BL_FLASH_PAGE_SIZE

def bl_flash_unlock (fc : FlashCtl) : FlashCtl := { fc with lock := false }

def bl_flash_lock (fc : FlashCtl) : FlashCtl := { fc with lock := true }

/-- Memory after a successful page erase at `addr`. -/
def erasedPage (mem : Nat → Nat) (addr : Nat) : Nat → Nat :=
  fun x => if addr ≤ x ∧ x < addr + BL_FLASH_PAGE_SIZE then 0xFF else mem x

/-- Memory after programming word `i` of a page write: the four bytes are
ANDed into the cells. -/
def progWord (mem : Nat → Nat) (addr : Nat) (data : List Nat) (i : Nat) :
    Nat → Nat :=
  fun x =>
    if addr + 4 * i ≤ x ∧ x < addr + 4 * i + 4 then
      mem x &&& data.getD (x - addr) 0
    else mem x

/-- The bytes at `[addr, addr + n)`. -/
def readBytes (mem : Nat → Nat) (addr n : Nat) : List Nat :=
  (List.range n).map fun i => mem (addr + i)

/-- `bl_flash_erase_page`: alignment and protected-region checks, a
busy-wait, then the erase inside a PER bracket with a second busy-wait.
Returns success, the new controller state, and the advanced wait counter. -/
def bl_flash_erase_page (waits : Nat → Bool) (c : Nat) (fc : FlashCtl)
    (addr : Nat) : Bool × FlashCtl × Nat :=
  if addr % BL_FLASH_PAGE_SIZE ≠ 0 then (false, fc, c)
  else if addr < BL_BOOT_STATE_ADDR then (false, fc, c)
  else if waits c = false then (false, fc, c + 1)
  else if waits (c + 1) = false then (false, { fc with per := false }, c + 2)
  else (true, { fc with per := false, mem := erasedPage fc.mem addr }, c + 2)

/-- The page-erase loop of `bl_flash_erase_app`: `n` remaining pages
starting at page index `i` (page address `BL_BOOT_STATE_ADDR + 64 * i`),
stopping at the first failing page. -/
def bl_flash_erase_loop (waits : Nat → Bool) :
    Nat → FlashCtl → Nat → Nat → Bool × FlashCtl × Nat
  | 0, fc, c, _ => (true, fc, c)
  | n + 1, fc, c, i =>
      match bl_flash_erase_page waits c fc
          (BL_BOOT_STATE_ADDR + BL_FLASH_PAGE_SIZE * i) with
      | (true, fc', c') => bl_flash_erase_loop waits n fc' c' (i + 1)
      | (false, fc', c') => (false, fc', c')

/-- Number of pages from the boot-state page to the end of flash. -/
def BL_NUM_APP_PAGES : Nat :=
  (BL_FLASH_END - BL_BOOT_STATE_ADDR) / BL_FLASH_PAGE_SIZE

/-- `bl_flash_erase_app`: unlock, erase every page from
`BL_BOOT_STATE_ADDR` to `BL_FLASH_END`, lock again on both exits. -/
def bl_flash_erase_app (waits : Nat → Bool) (c : Nat) (fc : FlashCtl) :
    Bool × FlashCtl × Nat :=
  match bl_flash_erase_loop waits BL_NUM_APP_PAGES (bl_flash_unlock fc) c 0 with
  | (ok, fc', c') => (ok, bl_flash_lock fc', c')

/-- The 16-word programming loop of `bl_flash_write_page`: program word `i`,
then busy-wait; abort (clearing handled by the caller) on a failed wait. -/
def bl_flash_write_words (waits : Nat → Bool) (addr : Nat) (data : List Nat) :
    Nat → FlashCtl → Nat → Nat → Bool × FlashCtl × Nat
  | 0, fc, c, _ => (true, fc, c)
  | n + 1, fc, c, i =>
      let fc' := { fc with mem := progWord fc.mem addr data i }
      if waits c then bl_flash_write_words waits addr data n fc' (c + 1) (i + 1)
      else (false, fc', c + 1)

/-- `bl_flash_write_page`: address checks, unlock, busy-wait, the word
programming loop inside a PG bracket, lock, then byte-exact read-back
verification. -/
def bl_flash_write_page (waits : Nat → Bool) (c : Nat) (fc : FlashCtl)
    (addr : Nat) (data : List Nat) : Bool × FlashCtl × Nat :=
  if addr % BL_FLASH_PAGE_SIZE ≠ 0 then (false, fc, c)
  else if addr < BL_BOOT_STATE_ADDR then (false, fc, c)
  else if BL_FLASH_END ≤ addr then (false, fc, c)
  else if waits c = false then
    (false, bl_flash_lock (bl_flash_unlock fc), c + 1)
  else
    match bl_flash_write_words waits addr data (BL_FLASH_PAGE_SIZE / 4)
        { bl_flash_unlock fc with pg := true } (c + 1) 0 with
    | (false, fc1, c1) => (false, bl_flash_lock { fc1 with pg := false }, c1)
    | (true, fc1, c1) =>
        if readBytes (bl_flash_lock { fc1 with pg := false }).mem addr
            BL_FLASH_PAGE_SIZE = data then
          (true, bl_flash_lock { fc1 with pg := false }, c1)
        else (false, bl_flash_lock { fc1 with pg := false }, c1)

/-- `bl_flash_calculate_crc`. -/
def bl_flash_calculate_crc (fc : FlashCtl) (start_addr size : Nat) : Nat :=
  crc32 (readBytes fc.mem start_addr size)

/-! ## I2C register protocol (`bl_i2c.c`)

Interrupt-captured protocol state.  The transmit (register read) path does
not interact with any claim and is not modelled; the receive path of
`I2C1_EV_IRQHandler` is `i2c_rx_byte`, the ADDR-match event for an incoming
write is `i2c_start_write`, and the polled main-loop step is
`bl_i2c_process_commands`. -/

structure BLState where
  bl_status : Nat
  bl_error : Nat
  page_buffer : List Nat
  page_index : Nat
  page_addr : Nat
  expected_crc : Nat
  reg_addr : Nat
  addr_received : Bool
  pending_command : Nat

/-- ADDR match with the master transmitting (a write transaction): reset the
register-pointer capture and the page-buffer index. -/
def i2c_start_write (s : BLState) : BLState :=
  { s with addr_received := false, page_index := 0 }

/-- One RXNE data byte of `I2C1_EV_IRQHandler`: the first byte after the
address sets the register pointer; later bytes are dispatched on it.  Bytes
to the page-data register accumulate while `page_index < PAGE_BUFFER_SIZE`
and are silently dropped afterwards; the command register only records the
pending command. -/
def i2c_rx_byte (s : BLState) (d : Nat) : BLState :=
  if s.addr_received = false then
    { s with reg_addr := d, addr_received := true, page_index := 0 }
  else if s.reg_addr = REG_BL_DATA then
    if s.page_index < PAGE_BUFFER_SIZE then
      { s with page_buffer := s.page_buffer.set s.page_index d,
               page_index := s.page_index + 1 }
    else s
  else if s.reg_addr = REG_BL_ADDR_L then
    { s with page_addr := (s.page_addr &&& 0xFF00) ||| d }
  else if s.reg_addr = REG_BL_ADDR_H then
    { s with page_addr := (s.page_addr &&& 0x00FF) ||| (d <<< 8) }
  else if s.reg_addr = REG_BL_CRC_0 then
    { s with expected_crc := (s.expected_crc &&& 0xFFFFFF00) ||| d }
  else if s.reg_addr = REG_BL_CRC_1 then
    { s with expected_crc := (s.expected_crc &&& 0xFFFF00FF) ||| (d <<< 8) }
  else if s.reg_addr = REG_BL_CRC_2 then
    { s with expected_crc := (s.expected_crc &&& 0xFF00FFFF) ||| (d <<< 16) }
  else if s.reg_addr = REG_BL_CRC_3 then
    { s with expected_crc := (s.expected_crc &&& 0x00FFFFFF) ||| (d <<< 24) }
  else if s.reg_addr = REG_BL_CMD then
    { s with pending_command := d }
  else s

/-- `execute_command`: dispatch on the command byte and record the outcome
in the status/error registers (the transient BUSY value, set on entry and
overwritten before the step returns, is not observable in this atomic
model; `bl_error` is cleared on entry, so a successful branch ends with
`BL_ERR_NONE`).  The flash controller and the wait-oracle counter are
threaded through. -/
def execute_command (cmd : Nat) (s : BLState) (fc : FlashCtl)
    (waits : Nat → Bool) (c : Nat) : BLState × FlashCtl × Nat :=
  if cmd = BL_CMD_ERASE then
    match bl_flash_erase_app waits c fc with
    | (true, fc', c') =>
        ({ s with bl_status := BL_STATUS_SUCCESS,
                  bl_error := BL_ERR_NONE }, fc', c')
    | (false, fc', c') =>
        ({ s with bl_status := BL_STATUS_ERROR,
                  bl_error := BL_ERR_FLASH_ERASE }, fc', c')
  else if cmd = BL_CMD_WRITE then
    if BL_APP_HEADER_ADDR + s.page_addr < BL_APP_HEADER_ADDR ∨
        BL_FLASH_END ≤ BL_APP_HEADER_ADDR + s.page_addr ∨
        (BL_APP_HEADER_ADDR + s.page_addr) % BL_FLASH_PAGE_SIZE ≠ 0 then
      ({ s with bl_status := BL_STATUS_ERROR,
                bl_error := BL_ERR_INVALID_ADDR }, fc, c)
    else
      match bl_flash_write_page waits c fc (BL_APP_HEADER_ADDR + s.page_addr)
          s.page_buffer with
      | (true, fc', c') =>
          ({ s with bl_status := BL_STATUS_SUCCESS,
                    bl_error := BL_ERR_NONE }, fc', c')
      | (false, fc', c') =>
          ({ s with bl_status := BL_STATUS_ERROR,
                    bl_error := BL_ERR_FLASH_WRITE }, fc', c')
  else if cmd = BL_CMD_VERIFY then
    if le32at (readBytes fc.mem BL_APP_HEADER_ADDR 64) 0 ≠ BL_APP_MAGIC then
      ({ s with bl_status := BL_STATUS_ERROR,
                bl_error := BL_ERR_APP_INVALID }, fc, c)
    else if bl_flash_calculate_crc fc BL_APP_CODE_ADDR
        (le32at (readBytes fc.mem BL_APP_HEADER_ADDR 64) 8) ≠
          s.expected_crc then
      ({ s with bl_status := BL_STATUS_ERROR,
                bl_error := BL_ERR_CRC_MISMATCH }, fc, c)
    else
      ({ s with bl_status := BL_STATUS_SUCCESS,
                bl_error := BL_ERR_NONE }, fc, c)
  else if cmd = BL_CMD_BOOT then
    ({ s with bl_status := BL_STATUS_SUCCESS,
              bl_error := BL_ERR_NONE }, fc, c)
  else
    ({ s with bl_status := BL_STATUS_ERROR,
              bl_error := BL_ERR_INVALID_CMD }, fc, c)

/-- `bl_i2c_process_commands`: the polled main-loop step.  The pending slot
is read once, cleared, and at most one command is dispatched. -/
def bl_i2c_process_commands (s : BLState) (fc : FlashCtl)
    (waits : Nat → Bool) (c : Nat) : BLState × FlashCtl × Nat :=
  if s.pending_command ≠ 0 then
    execute_command s.pending_command { s with pending_command := 0 } fc waits c
  else (s, fc, c)

theorem bl_flash_write_words_bits (waits : Nat → Bool) (addr : Nat)
    (data : List Nat) : ∀ n fc c i,
    (bl_flash_write_words waits addr data n fc c i).2.1.per = fc.per ∧
    (bl_flash_write_words waits addr data n fc c i).2.1.pg = fc.pg ∧
    (bl_flash_write_words waits addr data n fc c i).2.1.lock = fc.lock := by
  intro n
  induction n with
  | zero => intro fc c i; exact ⟨rfl, rfl, rfl⟩
  | succ n ih =>
      intro fc c i
      show (bl_flash_write_words waits addr data (n + 1) fc c i).2.1.per = _ ∧ _
      unfold bl_flash_write_words
      split
      · exact ih _ _ _
      · exact ⟨rfl, rfl, rfl⟩

/-- C6: every return path of `bl_flash_erase_page` and
`bl_flash_write_page` leaves the PER and PG mode bits cleared (given they
are clear on entry, as the driver maintains), and a call with a misaligned
address or an address below the protected bootloader boundary fails with no
side effect at all: the controller state, memory included, is returned
untouched. -/
theorem C6_flash_driver_mode_bits :
    (∀ waits c fc addr,
      (addr % BL_FLASH_PAGE_SIZE ≠ 0 ∨ addr < BL_BOOT_STATE_ADDR) →
      bl_flash_erase_page waits c fc addr = (false, fc, c)) ∧
    (∀ waits c fc addr, fc.per = false → fc.pg = false →
      (bl_flash_erase_page waits c fc addr).2.1.per = false ∧
      (bl_flash_erase_page waits c fc addr).2.1.pg = false) ∧
    (∀ waits c fc addr data,
      (addr % BL_FLASH_PAGE_SIZE ≠ 0 ∨ addr < BL_BOOT_STATE_ADDR) →
      bl_flash_write_page waits c fc addr data = (false, fc, c)) ∧
    (∀ waits c fc addr data, fc.per = false → fc.pg = false →
      (bl_flash_write_page waits c fc addr data).2.1.per = false ∧
      (bl_flash_write_page waits c fc addr data).2.1.pg = false) := by
  refine ⟨?_, ?_, ?_, ?_⟩
  · intro waits c fc addr h
    unfold bl_flash_erase_page
    split_ifs <;> first | rfl | (exfalso; rcases h with h | h <;> omega)
  · intro waits c fc addr hper hpg
    unfold bl_flash_erase_page
    split_ifs <;> exact ⟨by simp [hper], by simp [hpg]⟩
  · intro waits c fc addr data h
    unfold bl_flash_write_page
    split_ifs <;> first | rfl | (exfalso; rcases h with h | h <;> omega)
  · intro waits c fc addr data hper hpg
    unfold bl_flash_write_page
    split_ifs with h1 h2 h3 h4
    · exact ⟨hper, hpg⟩
    · exact ⟨hper, hpg⟩
    · exact ⟨hper, hpg⟩
    · exact ⟨hper, hpg⟩
    · obtain ⟨hp, hg, -⟩ := bl_flash_write_words_bits waits addr data
        (BL_FLASH_PAGE_SIZE / 4) { bl_flash_unlock fc with pg := true } (c + 1) 0
      rcases hww : bl_flash_write_words waits addr data (BL_FLASH_PAGE_SIZE / 4)
          { bl_flash_unlock fc with pg := true } (c + 1) 0 with ⟨ok, fc1, c1⟩
      rw [hww] at hp
      simp only [bl_flash_unlock] at hp
      rw [hper] at hp
      cases ok <;> dsimp only
      · exact ⟨by simpa [bl_flash_lock] using hp, by simp [bl_flash_lock]⟩
      · split <;>
          exact ⟨by simpa [bl_flash_lock] using hp, by simp [bl_flash_lock]⟩

set_option maxRecDepth 100000 in
/-- C6 witness: concrete instantiations of the four parts — a misaligned
erase, an in-range erase with a failing busy-wait, a protected-region
write, and an in-range write. -/
theorem C6_flash_driver_mode_bits_witness :
    (bl_flash_erase_page (fun _ => true) 0
        ⟨true, false, false, fun _ => 0xFF⟩ 0xC01 =
      (false, ⟨true, false, false, fun _ => 0xFF⟩, 0)) ∧
    ((bl_flash_erase_page (fun _ => false) 0
        ⟨true, false, false, fun _ => 0xFF⟩ 0xC40).2.1.per = false ∧
      (bl_flash_erase_page (fun _ => false) 0
        ⟨true, false, false, fun _ => 0xFF⟩ 0xC40).2.1.pg = false) ∧
    (bl_flash_write_page (fun _ => true) 0
        ⟨true, false, false, fun _ => 0xFF⟩ 0x800 (List.replicate 64 0) =
      (false, ⟨true, false, false, fun _ => 0xFF⟩, 0)) ∧
    ((bl_flash_write_page (fun _ => true) 0
        ⟨true, false, false, fun _ => 0xFF⟩ 0xC80
        (List.replicate 64 0)).2.1.per = false ∧
      (bl_flash_write_page (fun _ => true) 0
        ⟨true, false, false, fun _ => 0xFF⟩ 0xC80
        (List.replicate 64 0)).2.1.pg = false) :=
  ⟨C6_flash_driver_mode_bits.1 _ 0 _ 0xC01 (Or.inl (by decide)),
   C6_flash_driver_mode_bits.2.1 _ 0 _ 0xC40 rfl rfl,
   C6_flash_driver_mode_bits.2.2.1 _ 0 _ 0x800 _ (Or.inr (by decide)),
   C6_flash_driver_mode_bits.2.2.2 _ 0 _ 0xC80 _ rfl rfl⟩

/-! ### C7: the ERASE command

The loop lemmas below are stated over the literal memory map
(`BL_BOOT_STATE_ADDR = 3072`, `BL_FLASH_PAGE_SIZE = 64`). -/

theorem BL_BOOT_STATE_ADDR_eq : BL_BOOT_STATE_ADDR = 3072 := rfl

theorem BL_FLASH_PAGE_SIZE_eq : BL_FLASH_PAGE_SIZE = 64 := rfl

theorem BL_FLASH_END_eq : BL_FLASH_END = 16384 := rfl

theorem BL_NUM_APP_PAGES_eq : BL_NUM_APP_PAGES = 208 := rfl

theorem erase_page_at_ok (waits : Nat → Bool) (c : Nat) (fc : FlashCtl)
    (i : Nat) (h1 : waits c = true) (h2 : waits (c + 1) = true) :
    bl_flash_erase_page waits c fc (3072 + 64 * i) =
      (true,
        { fc with per := false, mem := erasedPage fc.mem (3072 + 64 * i) },
        c + 2) := by
  unfold bl_flash_erase_page
  rw [if_neg (by rw [BL_FLASH_PAGE_SIZE_eq]; omega),
    if_neg (by rw [BL_BOOT_STATE_ADDR_eq]; omega),
    if_neg (by simp [h1]), if_neg (by simp [h2])]

theorem erase_page_at_fail1 (waits : Nat → Bool) (c : Nat) (fc : FlashCtl)
    (i : Nat) (h1 : waits c = false) :
    bl_flash_erase_page waits c fc (3072 + 64 * i) = (false, fc, c + 1) := by
  unfold bl_flash_erase_page
  rw [if_neg (by rw [BL_FLASH_PAGE_SIZE_eq]; omega),
    if_neg (by rw [BL_BOOT_STATE_ADDR_eq]; omega), if_pos h1]

theorem erase_page_at_fail2 (waits : Nat → Bool) (c : Nat) (fc : FlashCtl)
    (i : Nat) (h1 : waits c = true) (h2 : waits (c + 1) = false) :
    bl_flash_erase_page waits c fc (3072 + 64 * i) =
      (false, { fc with per := false }, c + 2) := by
  unfold bl_flash_erase_page
  rw [if_neg (by rw [BL_FLASH_PAGE_SIZE_eq]; omega),
    if_neg (by rw [BL_BOOT_STATE_ADDR_eq]; omega),
    if_neg (by simp [h1]), if_pos h2]

theorem erase_loop_succ (waits : Nat → Bool) (n : Nat) (fc : FlashCtl)
    (c i : Nat) :
    bl_flash_erase_loop waits (n + 1) fc c i =
      match bl_flash_erase_page waits c fc (3072 + 64 * i) with
      | (true, fc', c') => bl_flash_erase_loop waits n fc' c' (i + 1)
      | (false, fc', c') => (false, fc', c') := rfl

/-- When every busy-wait succeeds, the erase loop erases exactly the pages
it covers and touches nothing else. -/
theorem erase_loop_all_ok (waits : Nat → Bool) (hw : ∀ m, waits m = true) :
    ∀ n fc c i,
      (bl_flash_erase_loop waits n fc c i).1 = true ∧
      (bl_flash_erase_loop waits n fc c i).2.1.lock = fc.lock ∧
      (bl_flash_erase_loop waits n fc c i).2.1.pg = fc.pg ∧
      (∀ x, 3072 + 64 * i ≤ x → x < 3072 + 64 * (i + n) →
        (bl_flash_erase_loop waits n fc c i).2.1.mem x = 0xFF) ∧
      (∀ x, x < 3072 + 64 * i ∨ 3072 + 64 * (i + n) ≤ x →
        (bl_flash_erase_loop waits n fc c i).2.1.mem x = fc.mem x) := by
  intro n
  induction n with
  | zero =>
      intro fc c i
      refine ⟨rfl, rfl, rfl, ?_, ?_⟩
      · intro x hx1 hx2
        omega
      · intro x _
        rfl
  | succ n ih =>
      intro fc c i
      have hstep := erase_page_at_ok waits c fc i (hw c) (hw (c + 1))
      rw [erase_loop_succ, hstep]
      set fcE : FlashCtl :=
        { fc with per := false, mem := erasedPage fc.mem (3072 + 64 * i) }
        with hfcE
      obtain ⟨hok, hlock, hpg, herased, hsame⟩ := ih fcE (c + 2) (i + 1)
      refine ⟨hok, hlock, hpg, ?_, ?_⟩
      · intro x hx1 hx2
        by_cases hx : 3072 + 64 * (i + 1) ≤ x
        · exact herased x hx (by omega)
        · rw [hsame x (Or.inl (by omega))]
          show erasedPage fc.mem (3072 + 64 * i) x = 0xFF
          unfold erasedPage
          rw [if_pos (by rw [BL_FLASH_PAGE_SIZE_eq]; omega)]
      · intro x hx
        rw [hsame x (by omega)]
        show erasedPage fc.mem (3072 + 64 * i) x = fc.mem x
        unfold erasedPage
        rw [if_neg (by rw [BL_FLASH_PAGE_SIZE_eq]; omega)]

/-- When the busy-waits of page `j` fail (those of all earlier pages having
succeeded), the erase loop stops at page `j`: pages before `j` are erased,
everything from page `j` on is untouched, and the loop reports failure. -/
theorem erase_loop_first_fail (waits : Nat → Bool) :
    ∀ j n fc c i, j < n →
      (∀ t, t < j → waits (c + 2 * t) = true ∧ waits (c + 2 * t + 1) = true) →
      (waits (c + 2 * j) = false ∨ waits (c + 2 * j + 1) = false) →
      (bl_flash_erase_loop waits n fc c i).1 = false ∧
      (bl_flash_erase_loop waits n fc c i).2.1.lock = fc.lock ∧
      (bl_flash_erase_loop waits n fc c i).2.1.pg = fc.pg ∧
      (∀ x, 3072 + 64 * i ≤ x → x < 3072 + 64 * (i + j) →
        (bl_flash_erase_loop waits n fc c i).2.1.mem x = 0xFF) ∧
      (∀ x, x < 3072 + 64 * i ∨ 3072 + 64 * (i + j) ≤ x →
        (bl_flash_erase_loop waits n fc c i).2.1.mem x = fc.mem x) := by
  intro j
  induction j with
  | zero =>
      intro n fc c i hjn hbefore hfail
      obtain ⟨n, rfl⟩ : ∃ m, n = m + 1 := ⟨n - 1, by omega⟩
      rw [Nat.mul_zero, Nat.add_zero] at hfail
      rw [erase_loop_succ]
      by_cases hc : waits c = true
      · have hc1 : waits (c + 1) = false := by
          rcases hfail with hf | hf
          · rw [hc] at hf
            exact absurd hf (by simp)
          · exact hf
        rw [erase_page_at_fail2 waits c fc i hc hc1]
        exact ⟨rfl, rfl, rfl, fun x hx1 hx2 => by omega, fun x _ => rfl⟩
      · rw [erase_page_at_fail1 waits c fc i (by simpa using hc)]
        exact ⟨rfl, rfl, rfl, fun x hx1 hx2 => by omega, fun x _ => rfl⟩
  | succ j ih =>
      intro n fc c i hjn hbefore hfail
      obtain ⟨n, rfl⟩ : ∃ m, n = m + 1 := ⟨n - 1, by omega⟩
      have h0 := hbefore 0 (by omega)
      rw [Nat.mul_zero, Nat.add_zero] at h0
      have hstep := erase_page_at_ok waits c fc i h0.1 h0.2
      rw [erase_loop_succ, hstep]
      set fcE : FlashCtl :=
        { fc with per := false, mem := erasedPage fc.mem (3072 + 64 * i) }
        with hfcE
      obtain ⟨hok, hlock, hpg, herased, hsame⟩ := ih n fcE (c + 2) (i + 1)
        (by omega)
        (by
          intro t ht
          have ht1 := hbefore (t + 1) (by omega)
          constructor
          · rw [show c + 2 + 2 * t = c + 2 * (t + 1) by ring]
            exact ht1.1
          · rw [show c + 2 + 2 * t + 1 = c + 2 * (t + 1) + 1 by ring]
            exact ht1.2)
        (by
          rcases hfail with hf | hf
          · exact Or.inl (by
              rw [show c + 2 + 2 * j = c + 2 * (j + 1) by ring]
              exact hf)
          · exact Or.inr (by
              rw [show c + 2 + 2 * j + 1 = c + 2 * (j + 1) + 1 by ring]
              exact hf))
      refine ⟨hok, hlock, hpg, ?_, ?_⟩
      · intro x hx1 hx2
        by_cases hx : 3072 + 64 * (i + 1) ≤ x
        · exact herased x hx (by omega)
        · rw [hsame x (Or.inl (by omega))]
          show erasedPage fc.mem (3072 + 64 * i) x = 0xFF
          unfold erasedPage
          rw [if_pos (by rw [BL_FLASH_PAGE_SIZE_eq]; omega)]
      · intro x hx
        rw [hsame x (by omega)]
        show erasedPage fc.mem (3072 + 64 * i) x = fc.mem x
        unfold erasedPage
        rw [if_neg (by rw [BL_FLASH_PAGE_SIZE_eq]; omega)]

/-- C7: the ERASE command, with no precondition, erases every page from the
boot-state page to the end of flash (boot state, app header and app code),
reports SUCCESS when every page erase succeeds, and reports ERROR with
error code FLASH_ERASE when a page erase fails, stopping at the first
failing page: pages before it are erased, nothing at or after it (nor below
the boot-state page) is touched, and flash ends locked either way. -/
theorem C7_erase_command :
    (∀ s fc waits c, (∀ m, waits m = true) →
      (execute_command BL_CMD_ERASE s fc waits c).1.bl_status =
          BL_STATUS_SUCCESS ∧
        (execute_command BL_CMD_ERASE s fc waits c).1.bl_error = BL_ERR_NONE ∧
        (execute_command BL_CMD_ERASE s fc waits c).2.1.lock = true ∧
        (∀ x, BL_BOOT_STATE_ADDR ≤ x → x < BL_FLASH_END →
          (execute_command BL_CMD_ERASE s fc waits c).2.1.mem x = 0xFF) ∧
        (∀ x, x < BL_BOOT_STATE_ADDR ∨ BL_FLASH_END ≤ x →
          (execute_command BL_CMD_ERASE s fc waits c).2.1.mem x = fc.mem x)) ∧
    (∀ s fc waits c j, j < BL_NUM_APP_PAGES →
      (∀ t, t < j → waits (c + 2 * t) = true ∧ waits (c + 2 * t + 1) = true) →
      (waits (c + 2 * j) = false ∨ waits (c + 2 * j + 1) = false) →
      (execute_command BL_CMD_ERASE s fc waits c).1.bl_status =
          BL_STATUS_ERROR ∧
        (execute_command BL_CMD_ERASE s fc waits c).1.bl_error =
          BL_ERR_FLASH_ERASE ∧
        (execute_command BL_CMD_ERASE s fc waits c).2.1.lock = true ∧
        (∀ x, BL_BOOT_STATE_ADDR ≤ x →
          x < BL_BOOT_STATE_ADDR + BL_FLASH_PAGE_SIZE * j →
          (execute_command BL_CMD_ERASE s fc waits c).2.1.mem x = 0xFF) ∧
        (∀ x, x < BL_BOOT_STATE_ADDR ∨
            BL_BOOT_STATE_ADDR + BL_FLASH_PAGE_SIZE * j ≤ x →
          (execute_command BL_CMD_ERASE s fc waits c).2.1.mem x = fc.mem x)) := by
  constructor
  · intro s fc waits c hw
    rcases hl : bl_flash_erase_loop waits BL_NUM_APP_PAGES
        (bl_flash_unlock fc) c 0 with ⟨ok, fc', c'⟩
    obtain ⟨hok, -, -, herased, hsame⟩ :=
      erase_loop_all_ok waits hw BL_NUM_APP_PAGES (bl_flash_unlock fc) c 0
    rw [hl] at hok herased hsame
    have hok' : ok = true := hok
    subst hok'
    have hexec : execute_command BL_CMD_ERASE s fc waits c =
        ({ s with bl_status := BL_STATUS_SUCCESS, bl_error := BL_ERR_NONE },
          bl_flash_lock fc', c') := by
      unfold execute_command bl_flash_erase_app
      rw [if_pos rfl, hl]
    rw [hexec]
    refine ⟨rfl, rfl, rfl, ?_, ?_⟩
    · intro x hx1 hx2
      rw [BL_BOOT_STATE_ADDR_eq] at hx1
      rw [BL_FLASH_END_eq] at hx2
      exact herased x (by omega) (by rw [BL_NUM_APP_PAGES_eq]; omega)
    · intro x hx
      have := hsame x (by
        rcases hx with hx | hx
        · rw [BL_BOOT_STATE_ADDR_eq] at hx
          exact Or.inl (by omega)
        · rw [BL_FLASH_END_eq] at hx
          exact Or.inr (by rw [BL_NUM_APP_PAGES_eq]; omega))
      exact this
  · intro s fc waits c j hj hbefore hfail
    rcases hl : bl_flash_erase_loop waits BL_NUM_APP_PAGES
        (bl_flash_unlock fc) c 0 with ⟨ok, fc', c'⟩
    obtain ⟨hok, -, -, herased, hsame⟩ :=
      erase_loop_first_fail waits j BL_NUM_APP_PAGES (bl_flash_unlock fc) c 0
        hj hbefore hfail
    rw [hl] at hok herased hsame
    have hok' : ok = false := hok
    subst hok'
    have hexec : execute_command BL_CMD_ERASE s fc waits c =
        ({ s with bl_status := BL_STATUS_ERROR,
                  bl_error := BL_ERR_FLASH_ERASE },
          bl_flash_lock fc', c') := by
      unfold execute_command bl_flash_erase_app
      rw [if_pos rfl, hl]
    rw [hexec]
    refine ⟨rfl, rfl, rfl, ?_, ?_⟩
    · intro x hx1 hx2
      rw [BL_BOOT_STATE_ADDR_eq] at hx1
      rw [BL_BOOT_STATE_ADDR_eq, BL_FLASH_PAGE_SIZE_eq] at hx2
      exact herased x (by omega) (by omega)
    · intro x hx
      exact hsame x (by
        rcases hx with hx | hx
        · rw [BL_BOOT_STATE_ADDR_eq] at hx
          exact Or.inl (by omega)
        · rw [BL_BOOT_STATE_ADDR_eq, BL_FLASH_PAGE_SIZE_eq] at hx
          exact Or.inr (by omega))

/-- A concrete protocol state for witnesses. -/
def s0 : BLState :=
  ⟨BL_STATUS_IDLE, BL_ERR_NONE, List.replicate 64 0, 0, 0, 0, 0, false, 0⟩

/-- A concrete flash-controller state for witnesses: locked, idle, all cells
programmed to 0. -/
def fc0 : FlashCtl := ⟨true, false, false, fun _ => 0⟩

/-- C7 witness: with an always-succeeding wait oracle the ERASE command
reports SUCCESS and erases the app-header page; with an always-failing one
it reports ERROR with FLASH_ERASE. -/
theorem C7_erase_command_witness :
    (execute_command BL_CMD_ERASE s0 fc0 (fun _ => true) 0).1.bl_status =
        BL_STATUS_SUCCESS ∧
      (execute_command BL_CMD_ERASE s0 fc0 (fun _ => true) 0).2.1.mem 0xC40 =
        0xFF ∧
      (execute_command BL_CMD_ERASE s0 fc0 (fun _ => false) 0).1.bl_status =
        BL_STATUS_ERROR ∧
      (execute_command BL_CMD_ERASE s0 fc0 (fun _ => false) 0).1.bl_error =
        BL_ERR_FLASH_ERASE :=
  ⟨(C7_erase_command.1 s0 fc0 (fun _ => true) 0 (fun _ => rfl)).1,
   (C7_erase_command.1 s0 fc0 (fun _ => true) 0 (fun _ => rfl)).2.2.2.1 0xC40
     (by decide) (by decide),
   (C7_erase_command.2 s0 fc0 (fun _ => false) 0 0 (by decide)
     (fun t ht => absurd ht (by omega)) (Or.inl rfl)).1,
   (C7_erase_command.2 s0 fc0 (fun _ => false) 0 0 (by decide)
     (fun t ht => absurd ht (by omega)) (Or.inl rfl)).2.1⟩

/-! ### C5: the single-slot pending-command hand-off -/

theorem i2c_rx_byte_cmd (s : BLState) (v : Nat)
    (h1 : s.addr_received = true) (h2 : s.reg_addr = REG_BL_CMD) :
    i2c_rx_byte s v = { s with pending_command := v } := by
  unfold i2c_rx_byte
  rw [if_neg (by rw [h1]; simp), if_neg (by rw [h2]; decide),
    if_neg (by rw [h2]; decide), if_neg (by rw [h2]; decide),
    if_neg (by rw [h2]; decide), if_neg (by rw [h2]; decide),
    if_neg (by rw [h2]; decide), if_neg (by rw [h2]; decide),
    if_pos h2]

theorem i2c_cmd_writes_foldl (vs : List Nat) : ∀ s : BLState,
    s.addr_received = true → s.reg_addr = REG_BL_CMD →
    vs.foldl i2c_rx_byte s =
      { s with pending_command := vs.getLastD s.pending_command } := by
  induction vs with
  | nil =>
      intro s h1 h2
      rfl
  | cons v rest ih =>
      intro s h1 h2
      show rest.foldl i2c_rx_byte (i2c_rx_byte s v) = _
      rw [i2c_rx_byte_cmd s v h1 h2,
        ih { s with pending_command := v } h1 h2,
        List.getLastD_cons]

theorem execute_command_pending (cmd : Nat) (s : BLState) (fc : FlashCtl)
    (waits : Nat → Bool) (c : Nat) :
    (execute_command cmd s fc waits c).1.pending_command =
      s.pending_command := by
  unfold execute_command
  split_ifs <;>
    first
    | rfl
    | (rcases bl_flash_erase_app waits c fc with ⟨ok, fc', c'⟩
       cases ok <;> rfl)
    | (rcases bl_flash_write_page waits c fc
          (BL_APP_HEADER_ADDR + s.page_addr) s.page_buffer with ⟨ok, fc', c'⟩
       cases ok <;> rfl)

/-- C5: the pending-command hand-off is a single overwritten slot.  Any
sequence of writes to the command register leaves the protocol state
unchanged except that the slot holds the most recently written value; the
main-loop step dispatches exactly one command — the slot value — when the
slot is non-empty, does nothing when it is empty, and leaves the slot empty
afterwards, so posting ERASE then WRITE before a step dispatches only
WRITE. -/
theorem C5_single_command_slot :
    (∀ (s : BLState) (vs : List Nat), s.addr_received = true →
      s.reg_addr = REG_BL_CMD →
      vs.foldl i2c_rx_byte s =
        { s with pending_command := vs.getLastD s.pending_command }) ∧
    (∀ s fc waits c, s.pending_command ≠ 0 →
      bl_i2c_process_commands s fc waits c =
        execute_command s.pending_command { s with pending_command := 0 }
          fc waits c) ∧
    (∀ s fc waits c, s.pending_command = 0 →
      bl_i2c_process_commands s fc waits c = (s, fc, c)) ∧
    (∀ s fc waits c,
      (bl_i2c_process_commands s fc waits c).1.pending_command = 0) := by
  refine ⟨fun s vs h1 h2 => i2c_cmd_writes_foldl vs s h1 h2, ?_, ?_, ?_⟩
  · intro s fc waits c h
    unfold bl_i2c_process_commands
    rw [if_pos h]
  · intro s fc waits c h
    unfold bl_i2c_process_commands
    rw [if_neg (by simp [h])]
  · intro s fc waits c
    unfold bl_i2c_process_commands
    split_ifs with h
    · rw [execute_command_pending]
    · simpa using h

/-- C5 witness: from an idle protocol state mid-transaction on the command
register, writing ERASE then WRITE leaves WRITE in the slot; one step
dispatches it (the WRITE fails with INVALID_ADDR here because the page
address registers still hold 0xFFFF) and empties the slot. -/
theorem C5_single_command_slot_witness :
    ([BL_CMD_ERASE, BL_CMD_WRITE].foldl i2c_rx_byte
        { s0 with addr_received := true, reg_addr := REG_BL_CMD,
                  page_addr := 0xFFFF } =
      { s0 with addr_received := true, reg_addr := REG_BL_CMD,
                page_addr := 0xFFFF, pending_command := BL_CMD_WRITE }) ∧
    (bl_i2c_process_commands
        { s0 with addr_received := true, reg_addr := REG_BL_CMD,
                  page_addr := 0xFFFF, pending_command := BL_CMD_WRITE }
        fc0 (fun _ => true) 0 =
      execute_command BL_CMD_WRITE
        { s0 with addr_received := true, reg_addr := REG_BL_CMD,
                  page_addr := 0xFFFF, pending_command := 0 }
        fc0 (fun _ => true) 0) ∧
    (bl_i2c_process_commands
        { s0 with addr_received := true, reg_addr := REG_BL_CMD,
                  page_addr := 0xFFFF, pending_command := BL_CMD_WRITE }
        fc0 (fun _ => true) 0).1.pending_command = 0 :=
  ⟨C5_single_command_slot.1 _ [BL_CMD_ERASE, BL_CMD_WRITE] rfl rfl,
   C5_single_command_slot.2.1 _ fc0 (fun _ => true) 0 (by decide),
   C5_single_command_slot.2.2.2 _ fc0 (fun _ => true) 0⟩

/-! ### C10: the 64-byte page-data register -/

theorem i2c_rx_byte_data (s : BLState) (d : Nat)
    (h1 : s.addr_received = true) (h2 : s.reg_addr = REG_BL_DATA) :
    i2c_rx_byte s d =
      if s.page_index < PAGE_BUFFER_SIZE then
        { s with page_buffer := s.page_buffer.set s.page_index d,
                 page_index := s.page_index + 1 }
      else s := by
  unfold i2c_rx_byte
  rw [if_neg (by rw [h1]; simp), if_pos h2]

theorem i2c_data_foldl_invariant (ds : List Nat) : ∀ s : BLState,
    s.addr_received = true → s.reg_addr = REG_BL_DATA →
    s.page_index ≤ PAGE_BUFFER_SIZE →
    (ds.foldl i2c_rx_byte s).addr_received = true ∧
    (ds.foldl i2c_rx_byte s).reg_addr = REG_BL_DATA ∧
    (ds.foldl i2c_rx_byte s).page_index ≤ PAGE_BUFFER_SIZE ∧
    (ds.foldl i2c_rx_byte s).page_buffer.length = s.page_buffer.length := by
  induction ds with
  | nil => intro s h1 h2 h3; exact ⟨h1, h2, h3, rfl⟩
  | cons d rest ih =>
      intro s h1 h2 h3
      rw [List.foldl_cons, i2c_rx_byte_data s d h1 h2]
      split
      · rename_i hlt
        obtain ⟨a, b, c, d'⟩ := ih
          { s with page_buffer := s.page_buffer.set s.page_index d,
                   page_index := s.page_index + 1 } h1 h2 (by exact hlt)
        exact ⟨a, b, c, by rw [d']; simp⟩
      · exact ih s h1 h2 h3

theorem i2c_data_foldl_full (ds : List Nat) : ∀ s : BLState,
    s.addr_received = true → s.reg_addr = REG_BL_DATA →
    s.page_index = PAGE_BUFFER_SIZE →
    ds.foldl i2c_rx_byte s = s := by
  induction ds with
  | nil => intro s _ _ _; rfl
  | cons d rest ih =>
      intro s h1 h2 h3
      rw [List.foldl_cons, i2c_rx_byte_data s d h1 h2, if_neg (by omega)]
      exact ih s h1 h2 h3

theorem i2c_data_foldl_count (ds : List Nat) : ∀ s : BLState,
    s.addr_received = true → s.reg_addr = REG_BL_DATA →
    s.page_index + ds.length ≤ PAGE_BUFFER_SIZE →
    (ds.foldl i2c_rx_byte s).page_index = s.page_index + ds.length ∧
    (ds.foldl i2c_rx_byte s).addr_received = true ∧
    (ds.foldl i2c_rx_byte s).reg_addr = REG_BL_DATA := by
  induction ds with
  | nil => intro s h1 h2 _; exact ⟨rfl, h1, h2⟩
  | cons d rest ih =>
      intro s h1 h2 h3
      rw [List.foldl_cons, i2c_rx_byte_data s d h1 h2,
        if_pos (by simp only [List.length_cons] at h3; omega)]
      obtain ⟨a, b, c⟩ := ih
        { s with page_buffer := s.page_buffer.set s.page_index d,
                 page_index := s.page_index + 1 } h1 h2
        (by show s.page_index + 1 + rest.length ≤ PAGE_BUFFER_SIZE
            simp only [List.length_cons] at h3
            omega)
      refine ⟨?_, b, c⟩
      rw [a]
      simp only [List.length_cons]
      omega

/-- C10: within one write transaction targeting the page-data register,
bytes beyond the 64th are silently discarded: the page index never exceeds
the buffer size, the buffer length never changes (no out-of-bounds store),
a full buffer is left completely untouched by further bytes, and from an
empty buffer any byte sequence has exactly the effect of its first 64
bytes. -/
theorem C10_page_buffer_bound :
    (∀ (s : BLState) (ds : List Nat), s.addr_received = true →
      s.reg_addr = REG_BL_DATA → s.page_index ≤ PAGE_BUFFER_SIZE →
      (ds.foldl i2c_rx_byte s).page_index ≤ PAGE_BUFFER_SIZE ∧
      (ds.foldl i2c_rx_byte s).page_buffer.length =
        s.page_buffer.length) ∧
    (∀ (s : BLState) (ds : List Nat), s.addr_received = true →
      s.reg_addr = REG_BL_DATA → s.page_index = PAGE_BUFFER_SIZE →
      ds.foldl i2c_rx_byte s = s) ∧
    (∀ (s : BLState) (ds : List Nat), s.addr_received = true →
      s.reg_addr = REG_BL_DATA → s.page_index = 0 →
      ds.foldl i2c_rx_byte s =
        (ds.take PAGE_BUFFER_SIZE).foldl i2c_rx_byte s) := by
  refine ⟨?_, ?_, ?_⟩
  · intro s ds h1 h2 h3
    obtain ⟨-, -, c, d⟩ := i2c_data_foldl_invariant ds s h1 h2 h3
    exact ⟨c, d⟩
  · intro s ds h1 h2 h3
    exact i2c_data_foldl_full ds s h1 h2 h3
  · intro s ds h1 h2 h3
    by_cases hlen : ds.length ≤ PAGE_BUFFER_SIZE
    · rw [List.take_of_length_le hlen]
    · conv_lhs => rw [← List.take_append_drop PAGE_BUFFER_SIZE ds]
      rw [List.foldl_append]
      obtain ⟨a, b, c⟩ := i2c_data_foldl_count (ds.take PAGE_BUFFER_SIZE) s
        h1 h2 (by rw [h3, List.length_take]; omega)
      refine i2c_data_foldl_full (ds.drop PAGE_BUFFER_SIZE) _ b c ?_
      rw [a, h3, List.length_take]
      omega

/-- C10 witness: from a fresh transaction state, 65 data bytes have the
same effect as the first 64, the index stops at 64, and the buffer keeps
its length. -/
theorem C10_page_buffer_bound_witness :
    (((List.replicate 65 0xAB).foldl i2c_rx_byte
        { s0 with addr_received := true, reg_addr := REG_BL_DATA }).page_index ≤
      PAGE_BUFFER_SIZE) ∧
    ((List.replicate 65 0xAB).foldl i2c_rx_byte
        { s0 with addr_received := true, reg_addr := REG_BL_DATA } =
      ((List.replicate 65 0xAB).take PAGE_BUFFER_SIZE).foldl i2c_rx_byte
        { s0 with addr_received := true, reg_addr := REG_BL_DATA }) :=
  ⟨(C10_page_buffer_bound.1 _ (List.replicate 65 0xAB) rfl rfl
      (by decide)).1,
   C10_page_buffer_bound.2.2 _ (List.replicate 65 0xAB) rfl rfl rfl⟩

/-! ### C8: the VERIFY command -/

/-- C8 (amended: the code gates VERIFY only on the header magic, not on
full header validity): the VERIFY command fails with status ERROR and error
APP_INVALID exactly when the stored header magic differs from the expected
constant; otherwise it computes CRC32 over the header-declared application
region (`app_size` bytes at the application code address) and reports
SUCCESS exactly when it equals the register-supplied expected CRC, else
ERROR with CRC_MISMATCH; in every case the flash controller (and so the
flash contents) is returned unchanged. -/
theorem C8_verify_command :
    ∀ (s : BLState) (fc : FlashCtl) (waits : Nat → Bool) (c : Nat),
      (le32at (readBytes fc.mem BL_APP_HEADER_ADDR 64) 0 ≠ BL_APP_MAGIC →
        execute_command BL_CMD_VERIFY s fc waits c =
          ({ s with bl_status := BL_STATUS_ERROR,
                    bl_error := BL_ERR_APP_INVALID }, fc, c)) ∧
      (le32at (readBytes fc.mem BL_APP_HEADER_ADDR 64) 0 = BL_APP_MAGIC →
        (crc32 (readBytes fc.mem BL_APP_CODE_ADDR
            (le32at (readBytes fc.mem BL_APP_HEADER_ADDR 64) 8)) =
              s.expected_crc →
          execute_command BL_CMD_VERIFY s fc waits c =
            ({ s with bl_status := BL_STATUS_SUCCESS,
                      bl_error := BL_ERR_NONE }, fc, c)) ∧
        (crc32 (readBytes fc.mem BL_APP_CODE_ADDR
            (le32at (readBytes fc.mem BL_APP_HEADER_ADDR 64) 8)) ≠
              s.expected_crc →
          execute_command BL_CMD_VERIFY s fc waits c =
            ({ s with bl_status := BL_STATUS_ERROR,
                      bl_error := BL_ERR_CRC_MISMATCH }, fc, c))) := by
  intro s fc waits c
  constructor
  · intro h
    unfold execute_command
    rw [if_neg (by decide), if_neg (by decide), if_pos rfl, if_pos h]
  · intro h
    constructor
    · intro hcrc
      unfold execute_command
      rw [if_neg (by decide), if_neg (by decide), if_pos rfl,
        if_neg (by simp [h]),
        if_neg (by simp [bl_flash_calculate_crc, hcrc])]
    · intro hcrc
      unfold execute_command
      rw [if_neg (by decide), if_neg (by decide), if_pos rfl,
        if_neg (by simp [h]),
        if_pos (by simpa [bl_flash_calculate_crc] using hcrc)]

/-- The 64 stored header bytes of the C8 counterexample: correct magic,
`app_size = 1`, correct `app_crc32` of the one code byte, but
`entry_point = 0` and `header_crc32 = 0`, so the header does NOT validate. -/
def hdrV : List Nat :=
  [0x57, 0x4F, 0x4D, 0x45, 1, 0, 1, 4, 1, 0, 0, 0, 0x31, 0xCF, 0xD0, 0x4A,
   0, 0, 0, 0, 0, 0, 0, 0] ++ List.replicate 40 0xFF

/-- Flash contents for the C8 counterexample: `hdrV` at the header address,
one application byte 0x42, erased elsewhere. -/
def memV : Nat → Nat := fun x =>
  if BL_APP_HEADER_ADDR ≤ x ∧ x < BL_APP_HEADER_ADDR + 64 then
    hdrV.getD (x - BL_APP_HEADER_ADDR) 0xFF
  else if x = BL_APP_CODE_ADDR then 0x42
  else 0xFF

set_option maxRecDepth 1000000 in
/-- C8 counterexample: with flash holding `hdrV` — whose `entry_point` and
`header_crc32` are wrong, so no valid application header is present
(`validate_app` rejects it) — and with the expected-CRC registers holding
the CRC of the one application byte, the VERIFY command nevertheless
reports SUCCESS, because the code checks only the header magic; the claim
requires ERROR/APP_INVALID whenever a valid header is not present. -/
theorem C8_counterexample_magic_only :
    validate_app (readBytes memV BL_APP_HEADER_ADDR 64)
        (readBytes memV BL_APP_CODE_ADDR 1) ≠ 0 ∧
      (execute_command BL_CMD_VERIFY { s0 with expected_crc := 0x4AD0CF31 }
          ⟨true, false, false, memV⟩ (fun _ => true) 0).1.bl_status =
        BL_STATUS_SUCCESS := by
  constructor
  · decide
  · decide

set_option maxRecDepth 1000000 in
/-- C8 witness: the three branches of the amended VERIFY behaviour at
concrete flash states — erased flash gives APP_INVALID, the `hdrV` flash
with the matching register CRC gives SUCCESS, and with a mismatching
register CRC gives CRC_MISMATCH. -/
theorem C8_verify_command_witness :
    (execute_command BL_CMD_VERIFY s0 fc0 (fun _ => true) 0).1.bl_error =
        BL_ERR_APP_INVALID ∧
      (execute_command BL_CMD_VERIFY { s0 with expected_crc := 0x4AD0CF31 }
          ⟨true, false, false, memV⟩ (fun _ => true) 0).1.bl_error =
        BL_ERR_NONE ∧
      (execute_command BL_CMD_VERIFY s0 ⟨true, false, false, memV⟩
          (fun _ => true) 0).1.bl_error = BL_ERR_CRC_MISMATCH :=
  ⟨by rw [(C8_verify_command s0 fc0 (fun _ => true) 0).1 (by decide)],
   by rw [((C8_verify_command { s0 with expected_crc := 0x4AD0CF31 }
       ⟨true, false, false, memV⟩ (fun _ => true) 0).2 (by decide)).1
       (by decide)],
   by rw [((C8_verify_command s0 ⟨true, false, false, memV⟩
       (fun _ => true) 0).2 (by decide)).2 (by decide)]⟩

/-! ## Host orchestrator (`StateMachine.cpp`)

The debug-probe target is a record: whether the core is halted and whether
the target flash is unlocked.  The collaborator primitives (`RVDebug`,
`WCHFlash`) are modelled as state transformers; their failure outcomes
(`halt()` returning false, `verify_flash` returning false) are oracle
booleans.  Each PROGRAMMING action also returns the list of primitive
calls it issued, so that "reset and resume were issued" is statable. -/

structure Target where
  halted : Bool
  flashUnlocked : Bool

inductive HostEv
  | halt
  | unlock
  | erase
  | write
  | verify
  | lock
  | reset
  | resume
deriving DecidableEq, Repr

def doHalt (ok : Bool) (t : Target) : Bool × Target :=
  (ok, if ok then { t with halted := true } else t)

def doUnlock (t : Target) : Target := { t with flashUnlocked := true }

def doLock (t : Target) : Target := { t with flashUnlocked := false }

def doReset (t : Target) : Target := t

def doResume (t : Target) : Target := { t with halted := false }

/-- `StateMachine::wipeChip`: halt (early false return on failure), unlock,
mass erase — whose hardware outcome `eraseOk` the code never consults —
then unconditionally lock, reset and resume, returning true. -/
def wipeChip (haltOk eraseOk : Bool) (t : Target) :
    Bool × Target × List HostEv :=
  match doHalt haltOk t with
  | (false, t1) => (false, t1, [HostEv.halt])
  | (true, t1) =>
      let t2 := doUnlock t1
      -- wch_flash->wipe_chip(): eraseOk is deliberately ignored (void call)
      let t3 := doResume (doReset (doLock t2))
      (true, t3,
        [HostEv.halt, HostEv.unlock, HostEv.erase, HostEv.lock,
         HostEv.reset, HostEv.resume])

/-- `StateMachine::programFlash`: null/empty-image guard, halt (early false
return on failure), unlock, erase the touched sectors, write, verify by
read-back (outcome `verifyOk`), then unconditionally lock, reset and
resume, returning the verify outcome. -/
def programFlash (haltOk verifyOk : Bool) (data : List Nat)
    (t : Target) : Bool × Target × List HostEv :=
  if data.length = 0 then (false, t, [])
  else
    match doHalt haltOk t with
    | (false, t1) => (false, t1, [HostEv.halt])
    | (true, t1) =>
        let t2 := doUnlock t1
        let t3 := doResume (doReset (doLock t2))
        (verifyOk, t3,
          [HostEv.halt, HostEv.unlock, HostEv.erase, HostEv.write,
           HostEv.verify, HostEv.lock, HostEv.reset, HostEv.resume])

/-- `StateMachine::programFirmware`: for an application-type image, build
the header, halt, unlock, erase the union of the header and code sectors,
write header then code, verify both (outcomes `verifyHdrOk`,
`verifyFwOk`), then unconditionally lock, reset and resume before the
verify outcomes decide the result; for a standalone image, delegate to
`programFlash`. -/
def programFirmware (haltOk verifyHdrOk verifyFwOk : Bool)
    (fw : firmware_info_t) (isApp : Bool) (t : Target) :
    Bool × Target × List HostEv :=
  if fw.data.length = 0 then (false, t, [])
  else if isApp then
    match doHalt haltOk t with
    | (false, t1) => (false, t1, [HostEv.halt])
    | (true, t1) =>
        let t2 := doUnlock t1
        let t3 := doResume (doReset (doLock t2))
        (verifyHdrOk && verifyFwOk, t3,
          [HostEv.halt, HostEv.unlock, HostEv.erase, HostEv.write,
           HostEv.write, HostEv.verify, HostEv.verify, HostEv.lock,
           HostEv.reset, HostEv.resume])
  else programFlash haltOk verifyFwOk fw.data t

/-- C3: every terminating PROGRAMMING action ends with the cleanup bracket:
whatever the oracle outcomes, a target that starts running with flash
locked ends running with flash locked; for the wipe selection, once the
halt succeeded, reset and resume are issued regardless of the (ignored)
erase outcome; and for a firmware write, even with a failed verify the
trace still ends lock–reset–resume. -/
theorem C3_cleanup_bracket :
    (∀ haltOk eraseOk t, t.halted = false → t.flashUnlocked = false →
      ((wipeChip haltOk eraseOk t).2.1.halted = false ∧
        (wipeChip haltOk eraseOk t).2.1.flashUnlocked = false) ∧
      (haltOk = true →
        HostEv.reset ∈ (wipeChip haltOk eraseOk t).2.2 ∧
        HostEv.resume ∈ (wipeChip haltOk eraseOk t).2.2)) ∧
    (∀ haltOk verifyOk data t, t.halted = false → t.flashUnlocked = false →
      ((programFlash haltOk verifyOk data t).2.1.halted = false ∧
        (programFlash haltOk verifyOk data t).2.1.flashUnlocked = false) ∧
      (haltOk = true → data.length ≠ 0 →
        List.IsSuffix [HostEv.lock, HostEv.reset, HostEv.resume]
          (programFlash haltOk verifyOk data t).2.2)) ∧
    (∀ haltOk vh vf fw isApp t, t.halted = false → t.flashUnlocked = false →
      (programFirmware haltOk vh vf fw isApp t).2.1.halted = false ∧
      (programFirmware haltOk vh vf fw isApp t).2.1.flashUnlocked = false) := by
  refine ⟨?_, ?_, ?_⟩
  · intro haltOk eraseOk t ht hf
    cases haltOk
    · exact ⟨⟨ht, hf⟩, by simp⟩
    · exact ⟨⟨rfl, rfl⟩, fun _ =>
        ⟨by simp [wipeChip, doHalt, doUnlock, doLock, doReset, doResume],
         by simp [wipeChip, doHalt, doUnlock, doLock, doReset, doResume]⟩⟩
  · intro haltOk verifyOk data t ht hf
    by_cases hd : data.length = 0
    · unfold programFlash
      rw [if_pos hd]
      exact ⟨⟨ht, hf⟩, fun _ hne => absurd hd hne⟩
    · unfold programFlash
      rw [if_neg hd]
      cases haltOk
      · exact ⟨⟨ht, hf⟩, by simp⟩
      · refine ⟨⟨rfl, rfl⟩, fun _ _ => ?_⟩
        exact ⟨[HostEv.halt, HostEv.unlock, HostEv.erase, HostEv.write,
          HostEv.verify], rfl⟩
  · intro haltOk vh vf fw isApp t ht hf
    unfold programFirmware
    by_cases hd : fw.data.length = 0
    · rw [if_pos hd]
      cases isApp <;> simp <;> first
        | exact ⟨ht, hf⟩
        | (unfold programFlash; rw [if_pos hd]; exact ⟨ht, hf⟩)
    · rw [if_neg hd]
      cases isApp
      · show ((programFlash haltOk vf fw.data t).2.1.halted = false ∧ _)
        unfold programFlash
        rw [if_neg hd]
        cases haltOk
        · exact ⟨ht, hf⟩
        · exact ⟨rfl, rfl⟩
      · cases haltOk
        · exact ⟨ht, hf⟩
        · exact ⟨rfl, rfl⟩

/-- C3 witness: a wipe whose erase outcome is a failure still ends running
and locked with reset/resume issued; a program with failed verify ends
running and locked with the lock–reset–resume suffix. -/
theorem C3_cleanup_bracket_witness :
    ((wipeChip true false ⟨false, false⟩).2.1.halted = false ∧
      HostEv.reset ∈ (wipeChip true false ⟨false, false⟩).2.2) ∧
    ((programFlash true false [0x42] ⟨false, false⟩).2.1.flashUnlocked =
        false ∧
      List.IsSuffix [HostEv.lock, HostEv.reset, HostEv.resume]
        (programFlash true false [0x42] ⟨false, false⟩).2.2) ∧
    (programFirmware true true false ⟨[0x42], 0xC80, 4, 1, 0⟩ true
      ⟨false, false⟩).2.1.halted = false :=
  ⟨⟨((C3_cleanup_bracket.1 true false ⟨false, false⟩ rfl rfl).1).1,
    ((C3_cleanup_bracket.1 true false ⟨false, false⟩ rfl rfl).2 rfl).1⟩,
   ⟨((C3_cleanup_bracket.2.1 true false [0x42] ⟨false, false⟩ rfl rfl).1).2,
    (C3_cleanup_bracket.2.1 true false [0x42] ⟨false, false⟩ rfl rfl).2 rfl
      (by decide)⟩,
   (C3_cleanup_bracket.2.2 true true false ⟨[0x42], 0xC80, 4, 1, 0⟩ true
     ⟨false, false⟩ rfl rfl).1⟩

/-! ### C4: target detection in CHECKING_TARGET

`StateMachine::haltWithTimeout` (the variant with the invalid-response
rejection): after re-initialising the debug transport and requesting a
halt, it polls `get_dmstatus()` in a loop.  A read whose raw value is
all-ones or all-zeros, or that reports the core simultaneously halted and
running, is rejected immediately (return false); a genuine ALLHALTED
response returns true; otherwise the loop sleeps 1 ms and retries until
the elapsed time exceeds the timeout.  The status stream is a function of
the iteration index; elapsed time at iteration `i` is `i` ms; the
`while (true)` loop is given fuel `timeout + 2`, enough for the real
time-based exit. -/

structure DMStatus where
  ALLHALTED : Bool
  ALLRUNNING : Bool
  raw : Nat

def badResponse (st : DMStatus) : Prop :=
  st.raw = 0xFFFFFFFF ∨ st.raw = 0 ∨ (st.ALLHALTED = true ∧ st.ALLRUNNING = true)

instance (st : DMStatus) : Decidable (badResponse st) := by
  unfold badResponse
  infer_instance

def haltLoop (status : Nat → DMStatus) (timeout : Nat) :
    Nat → Nat → Bool
  | 0, _ => false
  | fuel + 1, i =>
      if badResponse (status i) then false
      else if (status i).ALLHALTED then true
      else if timeout < i then false
      else haltLoop status timeout fuel (i + 1)

def haltWithTimeout (status : Nat → DMStatus) (timeout : Nat) : Bool :=
  haltLoop status timeout (timeout + 2) 0

inductive SystemState
  | STATE_IDLE
  | STATE_CHECKING_TARGET
  | STATE_PROGRAMMING
  | STATE_SUCCESS
  | STATE_ERROR
  | STATE_CYCLING_FIRMWARE
deriving DecidableEq, Repr

/-- The CHECKING_TARGET branch of `StateMachine::process`: a successful
`haltWithTimeout(100)` moves to PROGRAMMING, a failed one to ERROR. -/
def checkingTargetNext (status : Nat → DMStatus) (timeout : Nat) :
    SystemState :=
  if haltWithTimeout status timeout then SystemState.STATE_PROGRAMMING
  else SystemState.STATE_ERROR

theorem haltLoop_all_bad (status : Nat → DMStatus) (timeout : Nat)
    (hbad : ∀ i, badResponse (status i)) :
    ∀ fuel i, haltLoop status timeout fuel i = false := by
  intro fuel
  induction fuel with
  | zero => intro i; rfl
  | succ fuel ih =>
      intro i
      unfold haltLoop
      rw [if_pos (hbad i)]

/-- C4: in CHECKING_TARGET, if every status read is an invalid response —
raw all-ones (as from an absent target), raw all-zeros, or
simultaneously-halted-and-running — the orchestrator transitions to ERROR
and never to PROGRAMMING, whatever the configured timeout; a genuine
halted first response transitions to PROGRAMMING. -/
theorem C4_checking_target :
    (∀ (status : Nat → DMStatus) (timeout : Nat),
      (∀ i, badResponse (status i)) →
      checkingTargetNext status timeout = SystemState.STATE_ERROR ∧
      checkingTargetNext status timeout ≠ SystemState.STATE_PROGRAMMING) ∧
    (∀ (status : Nat → DMStatus) (timeout : Nat),
      ¬badResponse (status 0) → (status 0).ALLHALTED = true →
      checkingTargetNext status timeout = SystemState.STATE_PROGRAMMING) := by
  constructor
  · intro status timeout hbad
    have hfalse : haltWithTimeout status timeout = false :=
      haltLoop_all_bad status timeout hbad (timeout + 2) 0
    unfold checkingTargetNext
    rw [hfalse]
    exact ⟨rfl, by simp⟩
  · intro status timeout hgood hhalted
    have htrue : haltWithTimeout status timeout = true := by
      unfold haltWithTimeout haltLoop
      rw [if_neg hgood, if_pos hhalted]
    unfold checkingTargetNext
    rw [htrue]
    rfl

/-- C4 witness: a constant 0xFFFFFFFF status stream goes to ERROR with the
configured 100 ms timeout; a constant genuine-halted stream goes to
PROGRAMMING. -/
theorem C4_checking_target_witness :
    checkingTargetNext (fun _ => ⟨true, true, 0xFFFFFFFF⟩) 100 =
        SystemState.STATE_ERROR ∧
      checkingTargetNext (fun _ => ⟨true, false, 0x00030382⟩) 100 =
        SystemState.STATE_PROGRAMMING :=
  ⟨(C4_checking_target.1 (fun _ => ⟨true, true, 0xFFFFFFFF⟩) 100
      (fun _ => Or.inl rfl)).1,
   C4_checking_target.2 (fun _ => ⟨true, false, 0x00030382⟩) 100
     (by decide) rfl⟩

end PewPew
